import Mathlib

/-!
Verification development for the portfolio-analysis pipeline
(`tools.py`, `agents.py`, `config.py`).

Embedding conventions:
* Python floats are modelled as `ℚ` (exact arithmetic; the claims under
  study are structural, not about binary rounding).
* Python dicts are modelled as insertion-ordered association lists:
  assignment to an existing key updates it in place, a new key is
  appended, and iteration follows insertion order, exactly as for
  Python dicts.
* External library calls (`yf.download`, `Prophet.predict`,
  `np.sqrt`, `pandas.Series.std`, `random.uniform`, the LLM) are
  modelled as explicit oracle parameters: the surrounding control flow
  is translated from the source, the opaque numeric/IO results are
  inputs.
* Division by zero in `ℚ` yields `0`; the source guards every division
  used by the claims (`std_dev > 0`, `market_variance > 0`,
  `len(aligned) > 0`), so the convention is only visible in corners
  pandas fills with NaN.
-/

/-! ### Association lists (Python dict semantics) -/

/-- Lookup in an insertion-ordered association list (`d[k]` / `d.get(k)`). -/
def alLookup {α : Type} (k : String) : List (String × α) → Option α
  | [] => none
  | (k', v) :: rest => if k' = k then some v else alLookup k rest

/-- Assignment `d[k] = v` for a Python dict: update in place if the key
exists, else append at the end (insertion order preserved). -/
def alSet {α : Type} (k : String) (v : α) : List (String × α) → List (String × α)
  | [] => [(k, v)]
  | (k', v') :: rest => if k' = k then (k, v) :: rest else (k', v') :: alSet k v rest

/-- The keys of an association list, in insertion order. -/
def alKeys {α : Type} (l : List (String × α)) : List String := l.map Prod.fst

/-! ### Small Python-string helpers -/

/-- Python `str.upper()` restricted to ASCII letters (as `Char.toUpper`). -/
def pyUpper (s : String) : String := ⟨s.data.map Char.toUpper⟩

/-- Python `str.strip()`: drop leading and trailing whitespace. -/
def pyStrip (s : String) : String :=
  ⟨((s.data.dropWhile Char.isWhitespace).reverse.dropWhile Char.isWhitespace).reverse⟩

/-- Splitting a character list on `','` (Python `str.split(',')`:
`"".split(',') == [""]`, empty fields preserved). -/
def splitCommaAux : List Char → List Char → List (List Char)
  | [], acc => [acc.reverse]
  | c :: cs, acc =>
      if c = ',' then acc.reverse :: splitCommaAux cs []
      else splitCommaAux cs (c :: acc)

/-- Python `tickers.split(',')`. -/
def pySplitComma (s : String) : List String :=
  (splitCommaAux s.data []).map (fun l => ⟨l⟩)

/-- `t.strip().upper()` as applied to every ticker in `fetch_portfolio_data`. -/
def pyStripUpper (s : String) : String := pyUpper (pyStrip s)

/-- Python `"\n".join(lines)`. -/
def joinNl : List String → String
  | [] => ""
  | [x] => x
  | x :: xs => x ++ "\n" ++ joinNl xs

/-- Python `"\n\n".join(lines)`. -/
def joinTwoNl : List String → String
  | [] => ""
  | [x] => x
  | x :: xs => x ++ "\n\n" ++ joinTwoNl xs

/-! ### Number formatting (Python `f"{x:.2f}"` and friends).
The ranking/report claims do not depend on the printed digits, only on
the structure of the report, so two-decimal rendering with round-half-up
stands in for CPython's float repr. -/

/-- Two-digit zero padding. -/
def pad2 (n : ℕ) : String := if n < 10 then "0" ++ toString n else toString n

/-- `f"{q:.2f}"`. -/
def fmt2 (q : ℚ) : String :=
  let n : ℤ := round (q * 100)
  (if n < 0 then "-" else "") ++ toString (n.natAbs / 100) ++ "." ++ pad2 (n.natAbs % 100)

/-- `f"{q:+.2f}"`. -/
def fmtSigned (q : ℚ) : String :=
  (if round (q * 100) < 0 then "" else "+") ++ fmt2 q

/-- `f"{q:.2%}"`. -/
def fmtPct (q : ℚ) : String := fmt2 (q * 100) ++ "%"

/-! ### Numeric helpers (pandas / numpy / sklearn operations used by the tools) -/

/-- `series.pct_change().dropna()`: simple returns between consecutive values. -/
def pctChange (l : List ℚ) : List ℚ :=
  List.zipWith (fun prev next => (next - prev) / prev) l l.tail

/-- `series.mean()`. -/
def listMean (l : List ℚ) : ℚ := l.sum / l.length

/-- Sample variance with `ddof=1` (`pandas.Series.var()`). -/
def sampleVar (l : List ℚ) : ℚ :=
  let m := listMean l
  (l.map (fun x => (x - m) ^ 2)).sum / ((l.length : ℚ) - 1)

/-- Sample covariance with `ddof=1`: the value `np.cov(a, b)[0][1]`
takes on equal-length arrays. -/
def sampleCov (a b : List ℚ) : ℚ :=
  let ma := listMean a
  let mb := listMean b
  (List.zipWith (fun x y => (x - ma) * (y - mb)) a b).sum / ((a.length : ℚ) - 1)

/-- `np.cov(a, b)[0][1]` with `ddof=1`.  `np.cov` stacks the two 1-D
arrays and raises `ValueError` when their lengths differ; `none` models
that exception. -/
def npCov (a b : List ℚ) : Option ℚ :=
  if a.length = b.length then some (sampleCov a b) else none

/-- `series.iloc[-n:]`: the last `n` elements — except that for `n = 0`
Python's `-0` is `0`, so `iloc[-0:]` is the **whole** series. -/
def pySliceLast (l : List ℚ) (n : ℕ) : List ℚ :=
  if n = 0 then l else l.drop (l.length - n)

/-- Stable ascending insertion used by `sortAsc`. -/
def insertAsc (x : ℚ) : List ℚ → List ℚ
  | [] => [x]
  | y :: ys => if x ≤ y then x :: y :: ys else y :: insertAsc x ys

/-- Ascending sort of the values (as `np.sort` inside `np.percentile`). -/
def sortAsc : List ℚ → List ℚ
  | [] => []
  | x :: xs => insertAsc x (sortAsc xs)

/-- `np.percentile(l, 5)` with the default linear-interpolation method. -/
def percentile5 (l : List ℚ) : ℚ :=
  let sorted := sortAsc l
  let n := sorted.length
  if n = 0 then 0
  else
    let f : ℕ := (n - 1) / 20
    let pos : ℚ := ((n : ℚ) - 1) / 20
    sorted.getD f 0 + (pos - f) * (sorted.getD (f + 1) 0 - sorted.getD f 0)

/-- Ordinary least squares `(slope, intercept)` for
`sklearn.linear_model.LinearRegression().fit(X, y)` on one feature. -/
def linRegFit (xs ys : List ℚ) : ℚ × ℚ :=
  let mx := listMean xs
  let my := listMean ys
  let sxx := (xs.map (fun x => (x - mx) ^ 2)).sum
  let sxy := (List.zipWith (fun x y => (x - mx) * (y - my)) xs ys).sum
  let slope := sxy / sxx
  (slope, my - slope * mx)

/-- Smallest element of a date column (`df['Date'].min()`). -/
def listMinInt : List ℤ → ℤ
  | [] => 0
  | x :: xs => xs.foldl min x

/-! ### Data model (`DATA_STATE` in `tools.py`) -/

/-- One row of a fetched price DataFrame; only the columns the pipeline
reads (`Date`, `Close`) are modelled. -/
structure PriceRow where
  date : ℤ
  close : ℚ
deriving DecidableEq, Repr

/-- `DATA_STATE['risk_metrics'][ticker]`. -/
structure RiskMetric where
  sharpe : ℚ
  beta : ℚ
  var_95 : ℚ
  volatility : ℚ
deriving DecidableEq, Repr

/-- `DATA_STATE['forecasts'][ticker]`. -/
structure ForecastEntry where
  current : ℚ
  predicted : ℚ
  change_pct : ℚ
deriving DecidableEq, Repr

/-- `DATA_STATE['sentiment'][ticker]`. -/
structure SentimentEntry where
  score : ℚ
  label : String
deriving DecidableEq, Repr

/-- The global `DATA_STATE` dictionary. -/
structure DataState where
  portfolio : List (String × List PriceRow)
  forecasts : List (String × ForecastEntry)
  risk_metrics : List (String × RiskMetric)
  sentiment : List (String × SentimentEntry)
deriving DecidableEq, Repr

/-- `reset_state()`: all four mappings empty. -/
def reset_state : DataState :=
  { portfolio := [], forecasts := [], risk_metrics := [], sentiment := [] }

/-! ### Fetch Step (`fetch_portfolio_data`) -/

/-- Outcome of one `yf.download(ticker, ...)` call: a (possibly empty)
DataFrame, or a raised exception with its message. -/
inductive FetchOutcome where
  | ok (df : List PriceRow)
  | exn (msg : String)
deriving DecidableEq, Repr

/-- The status line recorded for one ticker by `fetch_portfolio_data`. -/
def fetchLine (oracle : String → FetchOutcome) (t : String) : String :=
  match oracle t with
  | .ok df =>
      if df = [] then "❌ " ++ t ++ ": No data available"
      else "✅ " ++ t ++ ": " ++ toString df.length ++ " data points"
  | .exn m => "❌ " ++ t ++ ": " ++ m.take 50

/-- The per-ticker loop of `fetch_portfolio_data`: store non-empty
DataFrames, convert empty results and exceptions into failure lines. -/
def fetchGo (oracle : String → FetchOutcome) :
    List String → DataState → DataState × List String
  | [], s => (s, [])
  | t :: ts, s =>
      let s' :=
        match oracle t with
        | .ok df => if df = [] then s else { s with portfolio := alSet t df s.portfolio }
        | .exn _ => s
      let r := fetchGo oracle ts s'
      (r.1, fetchLine oracle t :: r.2)

/-- `[t.strip().upper() for t in tickers.split(',')]`. -/
def fetchTickerList (tickers : String) : List String :=
  (pySplitComma tickers).map pyStripUpper

/-- `fetch_portfolio_data(tickers)`. The lookback `period` only
parameterizes the external download and is absorbed by the oracle. -/
def fetch_portfolio_data (oracle : String → FetchOutcome) (tickers : String)
    (s : DataState) : DataState × String :=
  let r := fetchGo oracle (fetchTickerList tickers) s
  (r.1, joinNl r.2)

/-! ### Risk Metrics Step (`calculate_risk_metrics`) -/

/-- "❌ Error: No portfolio data loaded. Fetch data first." -/
def noPortfolioErr : String := "❌ Error: No portfolio data loaded. Fetch data first."

/-- "❌ Error: Could not fetch market benchmark (SPY)" -/
def benchErr : String := "❌ Error: Could not fetch market benchmark (SPY)"

/-- "❌ No metrics calculated" -/
def noMetricsErr : String := "❌ No metrics calculated"

/-- `f"⚠️  {ticker}: Insufficient data"`. -/
def insuffLine (t : String) : String := "⚠️  " ++ t ++ ": Insufficient data"

/-- The formatted per-ticker risk summary block. -/
def riskLine (t : String) (m : RiskMetric) : String :=
  "📊 " ++ t ++ ":\n   • Sharpe Ratio: " ++ fmt2 m.sharpe ++
  "\n   • Beta: " ++ fmt2 m.beta ++
  "\n   • VaR (95%): " ++ fmtPct m.var_95 ++
  "\n   • Volatility: " ++ fmtPct m.volatility

/-- The numeric body of `calculate_risk_metrics` for one ticker with at
least 30 returns.  `stdFn` models `pandas.Series.std` and `sqrt252`
models `np.sqrt(252)`: both are external floating-point library calls.
The Beta block guards on `len(aligned_returns) > 0`; when the benchmark
return series is empty, `min_len = 0`, `iloc[-0:]` keeps the full
ticker series, the guard passes and `np.cov` raises `ValueError` on the
mismatched lengths — `none` here, propagating out of the step. -/
def computeRisk (stdFn : List ℚ → ℚ) (sqrt252 : ℚ) (spyRet returns : List ℚ) :
    Option RiskMetric :=
  let std := stdFn returns
  let excessMean := listMean (returns.map (fun r => r - 0.02 / 252))
  let sharpe := if 0 < std then sqrt252 * excessMean / std else 0
  let n := min returns.length spyRet.length
  let alignedR := pySliceLast returns n
  let alignedSpy := pySliceLast spyRet n
  if 0 < alignedR.length then
    match npCov alignedR alignedSpy with
    | none => none
    | some cov =>
        let marketVariance := sampleVar alignedSpy
        let beta := if 0 < marketVariance then cov / marketVariance else 1
        some { sharpe := sharpe
               beta := beta
               var_95 := percentile5 returns
               volatility := std * sqrt252 }
  else
    some { sharpe := sharpe
           beta := 1
           var_95 := percentile5 returns
           volatility := std * sqrt252 }

/-- The per-ticker loop of `calculate_risk_metrics`: skip tickers absent
from the portfolio, report insufficient data below 30 returns, else
store the computed metrics and append the formatted block.  The second
component is `none` when `np.cov` raises: the exception leaves the loop
with the mutations made so far (the global `DATA_STATE` keeps them) and
no report. -/
def riskGo (stdFn : List ℚ → ℚ) (sqrt252 : ℚ) (spyRet : List ℚ) :
    List String → DataState → DataState × Option (List String)
  | [], s => (s, some [])
  | t :: ts, s =>
      match alLookup t s.portfolio with
      | none => riskGo stdFn sqrt252 spyRet ts s
      | some rows =>
          let returns := pctChange (rows.map (·.close))
          if returns.length < 30 then
            let r := riskGo stdFn sqrt252 spyRet ts s
            (r.1, r.2.map (fun ls => insuffLine t :: ls))
          else
            match computeRisk stdFn sqrt252 spyRet returns with
            | none => (s, none)
            | some m =>
                let s' := { s with risk_metrics := alSet t m s.risk_metrics }
                let r := riskGo stdFn sqrt252 spyRet ts s'
                (r.1, r.2.map (fun ls => riskLine t m :: ls))

/-- The ticker list of `calculate_risk_metrics`: the split argument when
it is a non-empty string (Python truthiness), else the portfolio keys. -/
def riskTickerList (tickers : Option String) (s : DataState) : List String :=
  match tickers with
  | some ts => if ts = "" then alKeys s.portfolio else (pySplitComma ts).map pyStripUpper
  | none => alKeys s.portfolio

/-- `calculate_risk_metrics(tickers)`.  `spy` is the benchmark download:
`none` models a raised exception in the guarded fetch block, `some
closes` the fetched close series.  The result string is `none` exactly
when the per-ticker loop raises (`np.cov` `ValueError`), which the
source does not catch — the exception propagates to the caller while
the mutations already made to the global state remain. -/
def calculate_risk_metrics (spy : Option (List ℚ)) (stdFn : List ℚ → ℚ)
    (sqrt252 : ℚ) (tickers : Option String) (s : DataState) : DataState × Option String :=
  if s.portfolio = [] then (s, some noPortfolioErr)
  else
    match spy with
    | none => (s, some benchErr)
    | some spyCloses =>
        let spyRet := pctChange spyCloses
        let r := riskGo stdFn sqrt252 spyRet (riskTickerList tickers s) s
        (r.1, r.2.map (fun lines => if lines = [] then noMetricsErr else joinTwoNl lines))

/-! ### Forecast Step (`ensemble_forecast`) -/

/-- `f"❌ Error: {ticker} not loaded."`. -/
def notLoadedErr (t : String) : String := "❌ Error: " ++ t ++ " not loaded."

/-- The linear-trend leg: `days_since_start` from the date column, an
OLS fit of close against it, and the projection on
`np.arange(X[-1][0] + 1, X[-1][0] + days + 1)`. -/
def lrProjection (df : List PriceRow) (days : ℕ) : List ℚ :=
  let dates := df.map (·.date)
  let minDate := listMinInt dates
  let daysSince := dates.map (fun d => d - minDate)
  let fit := linRegFit (daysSince.map (fun d : ℤ => (d : ℚ))) (df.map (·.close))
  let lastX := daysSince.getLastD 0
  ((List.range days).map (fun i : ℕ => lastX + 1 + (i : ℤ))).map
    (fun d : ℤ => fit.2 + fit.1 * (d : ℚ))

/-- The seasonal leg: `forecast.iloc[-days:]['yhat'].values`, the last
`days` rows of the external model's prediction. -/
def prophetSlice (prophetYhat : List ℚ) (days : ℕ) : List ℚ :=
  prophetYhat.drop (prophetYhat.length - days)

/-- `ensemble_pred = 0.7 * prophet_pred + 0.3 * lr_forecast`. -/
def blendedProjection (prophetYhat : List ℚ) (df : List PriceRow) (days : ℕ) : List ℚ :=
  List.zipWith (fun p l => 0.7 * p + 0.3 * l)
    (prophetSlice prophetYhat days) (lrProjection df days)

/-- `ensemble_forecast(ticker, days)`.  `prophetYhat` is the `yhat`
column produced by the external Prophet model on
`make_future_dataframe(periods=days)`; the linear-regression leg and the
blend are computed from the stored series.  The chart side effect has no
bearing on the state and is not modelled. -/
def ensemble_forecast (prophetYhat : List ℚ) (ticker : String) (days : ℕ)
    (s : DataState) : DataState × String :=
  match alLookup ticker s.portfolio with
  | none => (s, notLoadedErr ticker)
  | some df =>
      let ensemblePred := blendedProjection prophetYhat df days
      let currentPrice := (df.map (·.close)).getLastD 0
      let predictedPrice := ensemblePred.getLastD 0
      let changePct := (predictedPrice - currentPrice) / currentPrice * 100
      let s' := { s with
        forecasts := alSet ticker
          { current := currentPrice, predicted := predictedPrice, change_pct := changePct }
          s.forecasts }
      (s', "📈 " ++ ticker ++ ": $" ++ fmt2 currentPrice ++ " -> $" ++
        fmt2 predictedPrice ++ " (" ++ fmtSigned changePct ++ "%)")

/-! ### Sentiment Step (`analyze_sentiment`) -/

/-- `analyze_sentiment(ticker)`.  `enableSent` is
`config.ENABLE_SENTIMENT`; `score` is the `random.uniform(-0.5, 0.5)`
draw.  Note: the step stores under the given ticker with no portfolio
membership check. -/
def analyze_sentiment (enableSent : Bool) (score : ℚ) (ticker : String)
    (s : DataState) : DataState × String :=
  if !enableSent then (s, "ℹ️ Sentiment Disabled")
  else
    let label := if 0 < score then "POSITIVE" else "NEGATIVE"
    ({ s with sentiment := alSet ticker { score := score, label := label } s.sentiment },
      "📰 " ++ ticker ++ " Sentiment: " ++ label ++ " (" ++ fmt2 score ++ ")")

/-! ### Ranking Step (`compare_portfolio`) -/

/-- `DATA_STATE['forecasts'].get(ticker, {}).get('change_pct', 0)`. -/
def changePctOf (s : DataState) (t : String) : ℚ :=
  match alLookup t s.forecasts with
  | some f => f.change_pct
  | none => 0

/-- The `(ticker, score)` pairs built from `risk_metrics.items()` in
insertion order: `score = metrics['sharpe'] * 0.5 + change_pct * 0.1`. -/
def scoredList (s : DataState) : List (String × ℚ) :=
  s.risk_metrics.map (fun p => (p.1, p.2.sharpe * 0.5 + changePctOf s p.1 * 0.1))

/-- Stable descending insertion for `list.sort(key=..., reverse=True)`. -/
def insertDesc (x : String × ℚ) : List (String × ℚ) → List (String × ℚ)
  | [] => [x]
  | y :: ys => if y.2 > x.2 then y :: insertDesc x ys else x :: y :: ys

/-- Stable descending sort by score (`ranking.sort(key=lambda x: x[1],
reverse=True)`; Python's sort is stable). -/
def sortDesc : List (String × ℚ) → List (String × ℚ)
  | [] => []
  | x :: xs => insertDesc x (sortDesc xs)

/-- The sorted ranking of `compare_portfolio`. -/
def rankingOf (s : DataState) : List (String × ℚ) := sortDesc (scoredList s)

/-- The numbered report lines (`enumerate(ranking, 1)`). -/
def rankLines : ℕ → List (String × ℚ) → String
  | _, [] => ""
  | i, (t, sc) :: rest =>
      toString i ++ ". " ++ t ++ " (Score: " ++ fmt2 sc ++ ")\n" ++ rankLines (i + 1) rest

/-- "❌ Run risk analysis first." -/
def noRiskErr : String := "❌ Run risk analysis first."

/-- `compare_portfolio()`. Reads the state, mutates nothing. -/
def compare_portfolio (s : DataState) : String :=
  if s.risk_metrics = [] then noRiskErr
  else "🏆 PORTFOLIO RANKING:\n" ++ rankLines 1 (rankingOf s)

/-- Recomputation of one composite score from the stored risk and
forecast values (the round-trip check of the spec). -/
def compositeScore (s : DataState) (t : String) : ℚ :=
  (match alLookup t s.risk_metrics with
   | some m => m.sharpe
   | none => 0) * 0.5 + changePctOf s t * 0.1

/-! ### Steps and the Manual-mode orchestrator (`agents.py`, `run_manual`) -/

/-- One tool invocation, bundling its arguments and the oracles for the
external calls it performs. -/
inductive Step where
  | fetch (oracle : String → FetchOutcome) (tickers : String)
  | risk (spy : Option (List ℚ)) (stdFn : List ℚ → ℚ) (sqrt252 : ℚ) (tickers : Option String)
  | forecast (prophetYhat : List ℚ) (ticker : String) (days : ℕ)
  | sentiment (enableSent : Bool) (score : ℚ) (ticker : String)
  | ranking

/-- Result string under which the sequencing model continues past an
uncaught exception from the risk step.  The Python run has no such
string: the `ValueError` aborts it at this point (the spec treats an
uncaught tool exception as surfacing to the caller), so nothing past
this point mirrors a real continuation. -/
def exnResult : String := "uncaught exception"

/-- Run one step: next state and its textual result. -/
def runStepR : Step → DataState → DataState × String
  | .fetch oracle tickers, s => fetch_portfolio_data oracle tickers s
  | .risk spy stdFn sqrt252 tickers, s =>
      let r := calculate_risk_metrics spy stdFn sqrt252 tickers s
      (r.1, r.2.getD exnResult)
  | .forecast prophetYhat ticker days, s => ensemble_forecast prophetYhat ticker days s
  | .sentiment enableSent score ticker, s => analyze_sentiment enableSent score ticker s
  | .ranking, s => (s, compare_portfolio s)

/-- Run one step, keeping only the state. -/
def runStep (st : Step) (s : DataState) : DataState := (runStepR st s).1

/-- Run a sequence of steps. -/
def runSteps : List Step → DataState → DataState
  | [], s => s
  | st :: sts, s => runSteps sts (runStep st s)

/-- One entry of the `results["steps"]` log. -/
structure StepEntry where
  step : String
  result : String
deriving DecidableEq, Repr

/-- The dict returned by `run_manual` (and `run_autonomous`). -/
structure RunResult where
  steps : List StepEntry
  final_response : String
  data_state : DataState
deriving DecidableEq, Repr

/-- The `steps` list built by `run_manual` before the execution loop:
fetch once, risk once, one forecast per (stripped, not uppercased)
ticker, one sentiment per ticker when both the caller flag and
`config.ENABLE_SENTIMENT` allow it, then the ranking. -/
def manualPlan (fetchO : String → FetchOutcome) (spy : Option (List ℚ))
    (stdFn : List ℚ → ℚ) (sqrt252 : ℚ) (prophetO : String → List ℚ)
    (sentO : String → ℚ) (enableSent : Bool) (tickers : String)
    (forecast_days : ℕ) (include_sentiment : Bool) : List (String × Step) :=
  [("Fetching Data", .fetch fetchO tickers),
   ("Risk Analysis", .risk spy stdFn sqrt252 (some tickers))]
  ++ (pySplitComma tickers).map
      (fun t => ("Forecasting " ++ pyStrip t, .forecast (prophetO (pyStrip t)) (pyStrip t) forecast_days))
  ++ (if include_sentiment && enableSent then
        (pySplitComma tickers).map
          (fun t => ("Sentiment " ++ pyStrip t, .sentiment enableSent (sentO (pyStrip t)) (pyStrip t)))
      else [])
  ++ [("Portfolio Ranking", .ranking)]

/-- The execution loop of `run_manual`: invoke each step in order and
append `{"step": name, "result": str(res)}` to the log. -/
def runPlan : List (String × Step) → DataState → DataState × List StepEntry
  | [], s => (s, [])
  | (name, st) :: rest, s =>
      let r := runStepR st s
      let rec' := runPlan rest r.1
      (rec'.1, { step := name, result := r.2 } :: rec'.2)

/-- `run_manual(tickers, forecast_days, include_sentiment)`: reset the
state, run the fixed plan, set `final_response` to the last step's
result. -/
def run_manual (fetchO : String → FetchOutcome) (spy : Option (List ℚ))
    (stdFn : List ℚ → ℚ) (sqrt252 : ℚ) (prophetO : String → List ℚ)
    (sentO : String → ℚ) (enableSent : Bool) (tickers : String)
    (forecast_days : ℕ) (include_sentiment : Bool) : RunResult :=
  let r := runPlan
    (manualPlan fetchO spy stdFn sqrt252 prophetO sentO enableSent tickers
      forecast_days include_sentiment) reset_state
  { steps := r.2
    final_response := (r.2.getLastD { step := "", result := "" }).result
    data_state := r.1 }

/-! ### Autonomous mode (`run_autonomous`)

The tool-calling loop itself is the external graph library
(`StateGraph` compiled in `_build_graph`): one `agent` node, one
`tools` node, `agent → tools` whenever the model answer carries tool
calls, `tools → agent` always.  It is modelled by its documented
semantics: each node execution is one super-step counted against the
caller's `recursion_limit`; exceeding the limit raises
`GraphRecursionError`.  The library default `recursion_limit` is 25;
`run_autonomous` passes 15 to `stream` and nothing to `invoke`. -/

/-- Result of one graph execution: normal completion or a
`GraphRecursionError`, with the number of super-steps executed. -/
inductive ExecResult where
  | completed (steps : ℕ)
  | recursionError (steps : ℕ)
deriving DecidableEq, Repr

/-- Super-steps executed by the agent/tools loop within a fuel budget.
`llm i` tells whether the i-th model answer requests tool calls.
Returns the steps consumed and whether the run reached `END`. -/
def graphGo (llm : ℕ → Bool) (i : ℕ) : ℕ → ℕ × Bool
  | 0 => (0, false)
  | fuel + 1 =>
      if llm i then
        match fuel with
        | 0 => (1, false)
        | fuel' + 1 =>
            let r := graphGo llm (i + 1) fuel'
            (r.1 + 2, r.2)
      else (1, true)

/-- One graph execution under a recursion limit. -/
def graphExec (llm : ℕ → Bool) (limit : ℕ) : ExecResult :=
  let r := graphGo llm 0 limit
  if r.2 then .completed r.1 else .recursionError limit

/-- Super-steps a graph execution actually ran. -/
def ExecResult.rounds : ExecResult → ℕ
  | .completed n => n
  | .recursionError n => n

/-- One `self.app.stream(...)` / `self.app.invoke(...)` call recorded
with its inputs and the recursion limit in force. -/
structure GraphCall where
  inputs : String
  limit : ℕ
  result : ExecResult
deriving DecidableEq, Repr

/-- The observable outcome of `run_autonomous`: the graph executions it
performed, and whether the `except` branch fired. -/
structure AutoResult where
  calls : List GraphCall
  errored : Bool
deriving DecidableEq, Repr

/-- The graph library's default `recursion_limit`, used by the bare
`self.app.invoke(inputs)` call. -/
def defaultRecursionLimit : ℕ := 25

/-- `run_autonomous(query)`: stream the graph with `recursion_limit`
15; if that raises, the exception is caught and reported; otherwise the
same inputs are passed to a second, bare `invoke` under the library
default limit (also inside the `try`). -/
def run_autonomous (llmStream llmInvoke : ℕ → Bool) (query : String) : AutoResult :=
  let r1 := graphExec llmStream 15
  match r1 with
  | .recursionError _ => { calls := [{ inputs := query, limit := 15, result := r1 }], errored := true }
  | .completed _ =>
      let r2 := graphExec llmInvoke defaultRecursionLimit
      { calls := [{ inputs := query, limit := 15, result := r1 },
                  { inputs := query, limit := defaultRecursionLimit, result := r2 }]
        errored := match r2 with | .recursionError _ => true | .completed _ => false }

/-- Total super-steps executed across all graph calls of one
`run_autonomous` invocation. -/
def totalRounds (a : AutoResult) : ℕ := (a.calls.map (fun c => c.result.rounds)).sum

/-! ### Association-list lemmas -/

theorem alLookup_alSet_self {α : Type} (k : String) (v : α) (l : List (String × α)) :
    alLookup k (alSet k v l) = some v := by
  induction l with
  | nil => simp [alSet, alLookup]
  | cons p rest ih =>
      by_cases h : p.1 = k
      · simp [alSet, h, alLookup]
      · simp [alSet, h, alLookup, ih]

theorem alLookup_alSet_ne {α : Type} {k k' : String} (v : α) (l : List (String × α))
    (h : k' ≠ k) : alLookup k (alSet k' v l) = alLookup k l := by
  induction l with
  | nil => simp [alSet, alLookup, h]
  | cons p rest ih =>
      rcases p with ⟨pk, pv⟩
      by_cases hp : pk = k'
      · subst hp
        simp [alSet, alLookup, h]
      · by_cases hk : pk = k
        · simp [alSet, hp, alLookup, hk, Ne.symm h]
        · simp [alSet, hp, alLookup, hk, ih]

theorem mem_alKeys_of_alLookup {α : Type} {k : String} {v : α} {l : List (String × α)}
    (h : alLookup k l = some v) : k ∈ alKeys l := by
  induction l with
  | nil => simp [alLookup] at h
  | cons p rest ih =>
      by_cases hp : p.1 = k
      · simp [alKeys, hp]
      · rw [alLookup] at h
        rw [if_neg hp] at h
        have hm := ih h
        show k ∈ p.1 :: alKeys rest
        exact List.mem_cons_of_mem _ hm

theorem mem_alKeys_alSet {α : Type} {a k : String} {v : α} {l : List (String × α)} :
    a ∈ alKeys (alSet k v l) ↔ a = k ∨ a ∈ alKeys l := by
  induction l with
  | nil => simp [alSet, alKeys]
  | cons p rest ih =>
      by_cases hp : p.1 = k
      · subst hp
        simp [alSet, alKeys]
      · simp [alSet, hp, alKeys] at ih ⊢
        tauto

/-! ### Fetch-step lemmas -/

/-- The DataFrame stored for a ticker, when its download counts as a
success (`not df.empty`); `none` for an empty result or an exception. -/
def dfOk : FetchOutcome → Option (List PriceRow)
  | .ok df => if df = [] then none else some df
  | .exn _ => none

theorem fetchGo_lines (o : String → FetchOutcome) (ts : List String) (s : DataState) :
    (fetchGo o ts s).2 = ts.map (fetchLine o) := by
  induction ts generalizing s with
  | nil => rfl
  | cons t rest ih => simp [fetchGo, ih]

theorem fetchGo_lookup_stable (o : String → FetchOutcome) {t : String}
    {ts : List String} (s : DataState) (h : t ∉ ts) :
    alLookup t (fetchGo o ts s).1.portfolio = alLookup t s.portfolio := by
  induction ts generalizing s with
  | nil => rfl
  | cons u rest ih =>
      have hu : u ≠ t := fun e => h (e ▸ List.mem_cons_self u rest)
      have ht : t ∉ rest := fun e => h (List.mem_cons_of_mem u e)
      cases ho : o u with
      | ok df =>
          by_cases hdf : df = []
          · simp [fetchGo, ho, hdf, ih _ ht]
          · simp [fetchGo, ho, hdf, ih _ ht, alLookup_alSet_ne _ _ hu]
      | exn m => simp [fetchGo, ho, ih _ ht]

theorem fetchGo_lookup_of_fail (o : String → FetchOutcome) {t : String}
    (ts : List String) (s : DataState) (h : dfOk (o t) = none) :
    alLookup t (fetchGo o ts s).1.portfolio = alLookup t s.portfolio := by
  induction ts generalizing s with
  | nil => rfl
  | cons u rest ih =>
      by_cases hu : u = t
      · subst hu
        cases ho : o u with
        | ok df =>
            by_cases hdf : df = []
            · simp [fetchGo, ho, hdf, ih]
            · rw [ho] at h
              simp [dfOk, hdf] at h
        | exn m => simp [fetchGo, ho, ih]
      · cases ho : o u with
        | ok df =>
            by_cases hdf : df = []
            · simp [fetchGo, ho, hdf, ih]
            · simp [fetchGo, ho, hdf, ih, alLookup_alSet_ne _ _ hu]
        | exn m => simp [fetchGo, ho, ih]

theorem fetchGo_lookup_of_success (o : String → FetchOutcome) {t : String}
    {df : List PriceRow} {ts : List String} (s : DataState)
    (h : dfOk (o t) = some df) (ht : t ∈ ts) :
    alLookup t (fetchGo o ts s).1.portfolio = some df := by
  induction ts generalizing s with
  | nil => cases ht
  | cons u rest ih =>
      by_cases hrest : t ∈ rest
      · cases ho : o u with
        | ok d =>
            by_cases hdf : d = []
            · simpa [fetchGo, ho, hdf] using ih _ hrest
            · simpa [fetchGo, ho, hdf] using ih _ hrest
        | exn m => simpa [fetchGo, ho] using ih _ hrest
      · have hu : u = t := by
          rcases List.mem_cons.mp ht with h1 | h2
          · exact h1.symm
          · exact absurd h2 hrest
        subst hu
        cases ho : o u with
        | ok d =>
            rw [ho] at h
            by_cases hdf : d = []
            · simp [dfOk, hdf] at h
            · have hd : d = df := by simpa [dfOk, hdf] using h
              subst hd
              rw [fetchGo]
              simp only [ho, hdf, if_neg hdf]
              rw [fetchGo_lookup_stable o _ hrest]
              simp [alLookup_alSet_self]
        | exn m =>
            rw [ho] at h
            simp [dfOk] at h

/-! ### Claim C4 — Fetch never aborts, one status line per ticker -/

/-- C4: for every input ticker string, the Fetch Step returns exactly
one status line per comma-separated input ticker — the line list is a
pointwise map over the ticker list, so one ticker's failure cannot
affect another's processing — and each ticker either succeeds (its
success line is emitted and its DataFrame is stored under its key) or
fails (a `❌` line is emitted and its portfolio entry is left exactly as
it was; in particular, starting from an empty portfolio, a failed
ticker is absent afterwards). -/
theorem fetch_per_ticker_isolation (o : String → FetchOutcome) (tickers : String)
    (s : DataState) :
    (fetchGo o (fetchTickerList tickers) s).2 = (fetchTickerList tickers).map (fetchLine o)
    ∧ (fetch_portfolio_data o tickers s).2
        = joinNl ((fetchTickerList tickers).map (fetchLine o))
    ∧ ((fetchGo o (fetchTickerList tickers) s).2).length = (pySplitComma tickers).length
    ∧ (∀ t ∈ fetchTickerList tickers,
        (∀ df, dfOk (o t) = some df →
          fetchLine o t = "✅ " ++ t ++ ": " ++ toString df.length ++ " data points"
          ∧ alLookup t (fetch_portfolio_data o tickers s).1.portfolio = some df)
        ∧ (dfOk (o t) = none →
          (∃ m, fetchLine o t = "❌ " ++ t ++ ": " ++ m)
          ∧ alLookup t (fetch_portfolio_data o tickers s).1.portfolio
              = alLookup t s.portfolio))
    ∧ (s.portfolio = [] → ∀ t ∈ fetchTickerList tickers, dfOk (o t) = none →
        alLookup t (fetch_portfolio_data o tickers s).1.portfolio = none) := by
  have hfst : (fetch_portfolio_data o tickers s).1 = (fetchGo o (fetchTickerList tickers) s).1 := rfl
  refine ⟨fetchGo_lines o _ s, ?_, ?_, ?_, ?_⟩
  · show joinNl (fetchGo o (fetchTickerList tickers) s).2 = _
    rw [fetchGo_lines]
  · rw [fetchGo_lines, List.length_map, fetchTickerList, List.length_map]
  · intro t ht
    constructor
    · intro df hdf
      constructor
      · cases ho : o t with
        | ok d =>
            rw [ho] at hdf
            by_cases hd : d = []
            · simp [dfOk, hd] at hdf
            · have : d = df := by simpa [dfOk, hd] using hdf
              subst this
              simp [fetchLine, ho, hd]
        | exn m => rw [ho] at hdf; simp [dfOk] at hdf
      · rw [hfst]
        exact fetchGo_lookup_of_success o s hdf ht
    · intro hdf
      constructor
      · cases ho : o t with
        | ok d =>
            rw [ho] at hdf
            by_cases hd : d = []
            · refine ⟨"No data available", ?_⟩
              have hlit : (": No data available" : String) = ": " ++ "No data available" := by
                decide
              simp [fetchLine, ho, hd, String.append_assoc, hlit]
            · simp [dfOk, hd] at hdf
        | exn m => exact ⟨m.take 50, by simp [fetchLine, ho]⟩
      · rw [hfst]
        exact fetchGo_lookup_of_fail o _ s hdf
  · intro hs t ht hdf
    rw [hfst, fetchGo_lookup_of_fail o _ s hdf, hs]
    rfl

/-- Concrete fetch oracle for the C4 witness: `AAA` resolves to a
two-row DataFrame, everything else raises. -/
def wFetchOracle : String → FetchOutcome := fun t =>
  if t = "AAA" then .ok [{ date := 0, close := 1 }, { date := 1, close := 2 }]
  else .exn "no price data found for this symbol at all"

theorem fetch_per_ticker_isolation_witness :
    alLookup "AAA" ((fetch_portfolio_data wFetchOracle "AAA, bbb" reset_state).1.portfolio)
      = some [{ date := 0, close := 1 }, { date := 1, close := 2 }]
    ∧ alLookup "BBB" ((fetch_portfolio_data wFetchOracle "AAA, bbb" reset_state).1.portfolio)
      = none := by
  constructor
  · exact (((fetch_per_ticker_isolation wFetchOracle "AAA, bbb" reset_state).2.2.2.1
      "AAA" (by decide)).1 _ (by decide)).2
  · exact (fetch_per_ticker_isolation wFetchOracle "AAA, bbb" reset_state).2.2.2.2
      (by decide) "BBB" (by decide) (by decide)

/-! ### String head lemmas (used to separate report strings from error strings) -/

theorem data_head_append (a b : String) (c : Char) (h : a.data.head? = some c) :
    (a ++ b).data.head? = some c := by
  rw [String.data_append]
  cases hd : a.data with
  | nil => rw [hd] at h; simp at h
  | cons x xs =>
      rw [hd] at h
      simp at h
      simp [h]

theorem head_riskLine (t : String) (m : RiskMetric) :
    (riskLine t m).data.head? = some '📊' := by
  unfold riskLine
  repeat apply data_head_append
  rfl

theorem head_insuffLine (t : String) : (insuffLine t).data.head? = some '⚠' := by
  unfold insuffLine
  repeat apply data_head_append
  rfl

theorem head_joinTwoNl (l : String) (ls : List String) (c : Char)
    (h : l.data.head? = some c) : (joinTwoNl (l :: ls)).data.head? = some c := by
  cases ls with
  | nil => simpa [joinTwoNl] using h
  | cons y ys =>
      show ((l ++ "\n\n") ++ joinTwoNl (y :: ys)).data.head? = some c
      exact data_head_append _ _ _ (data_head_append _ _ _ h)

/-! ### Risk-step structural lemmas -/

theorem riskGo_portfolio (stdFn : List ℚ → ℚ) (sqrt252 : ℚ) (spyRet : List ℚ)
    (ts : List String) (s : DataState) :
    (riskGo stdFn sqrt252 spyRet ts s).1.portfolio = s.portfolio := by
  induction ts generalizing s with
  | nil => rfl
  | cons t rest ih =>
      cases hp : alLookup t s.portfolio with
      | none => simp [riskGo, hp, ih]
      | some rows =>
          by_cases hlen : (pctChange (rows.map (·.close))).length < 30
          · simp [riskGo, hp, hlen, ih]
          · cases hcr : computeRisk stdFn sqrt252 spyRet (pctChange (rows.map (·.close))) with
            | none => simp [riskGo, hp, hlen, hcr]
            | some m => simp [riskGo, hp, hlen, hcr, ih]

theorem riskGo_forecasts (stdFn : List ℚ → ℚ) (sqrt252 : ℚ) (spyRet : List ℚ)
    (ts : List String) (s : DataState) :
    (riskGo stdFn sqrt252 spyRet ts s).1.forecasts = s.forecasts := by
  induction ts generalizing s with
  | nil => rfl
  | cons t rest ih =>
      cases hp : alLookup t s.portfolio with
      | none => simp [riskGo, hp, ih]
      | some rows =>
          by_cases hlen : (pctChange (rows.map (·.close))).length < 30
          · simp [riskGo, hp, hlen, ih]
          · cases hcr : computeRisk stdFn sqrt252 spyRet (pctChange (rows.map (·.close))) with
            | none => simp [riskGo, hp, hlen, hcr]
            | some m => simp [riskGo, hp, hlen, hcr, ih]

theorem riskGo_sentiment (stdFn : List ℚ → ℚ) (sqrt252 : ℚ) (spyRet : List ℚ)
    (ts : List String) (s : DataState) :
    (riskGo stdFn sqrt252 spyRet ts s).1.sentiment = s.sentiment := by
  induction ts generalizing s with
  | nil => rfl
  | cons t rest ih =>
      cases hp : alLookup t s.portfolio with
      | none => simp [riskGo, hp, ih]
      | some rows =>
          by_cases hlen : (pctChange (rows.map (·.close))).length < 30
          · simp [riskGo, hp, hlen, ih]
          · cases hcr : computeRisk stdFn sqrt252 spyRet (pctChange (rows.map (·.close))) with
            | none => simp [riskGo, hp, hlen, hcr]
            | some m => simp [riskGo, hp, hlen, hcr, ih]

theorem riskGo_lines_shape (stdFn : List ℚ → ℚ) (sqrt252 : ℚ) (spyRet : List ℚ)
    (ts : List String) (s : DataState) :
    ∀ lines, (riskGo stdFn sqrt252 spyRet ts s).2 = some lines →
      ∀ l ∈ lines, (∃ t m, l = riskLine t m) ∨ (∃ t, l = insuffLine t) := by
  induction ts generalizing s with
  | nil =>
      intro lines hl l hml
      simp only [riskGo, Option.some.injEq] at hl
      rw [← hl] at hml
      cases hml
  | cons t rest ih =>
      intro lines hl l hml
      cases hp : alLookup t s.portfolio with
      | none =>
          simp only [riskGo, hp] at hl
          exact ih _ lines hl l hml
      | some rows =>
          by_cases hlen : (pctChange (rows.map (·.close))).length < 30
          · simp only [riskGo, hp, if_pos hlen] at hl
            cases hr : (riskGo stdFn sqrt252 spyRet rest s).2 with
            | none => rw [hr] at hl; simp at hl
            | some ls =>
                rw [hr] at hl
                simp only [Option.map_some', Option.some.injEq] at hl
                rw [← hl] at hml
                rcases List.mem_cons.mp hml with h1 | h2
                · exact Or.inr ⟨t, h1⟩
                · exact ih _ ls hr l h2
          · cases hcr : computeRisk stdFn sqrt252 spyRet (pctChange (rows.map (·.close))) with
            | none => simp only [riskGo, hp, if_neg hlen, hcr] at hl; cases hl
            | some m =>
                simp only [riskGo, hp, if_neg hlen, hcr] at hl
                cases hr : (riskGo stdFn sqrt252 spyRet rest
                    { s with risk_metrics := alSet t m s.risk_metrics }).2 with
                | none => rw [hr] at hl; simp at hl
                | some ls =>
                    rw [hr] at hl
                    simp only [Option.map_some', Option.some.injEq] at hl
                    rw [← hl] at hml
                    rcases List.mem_cons.mp hml with h1 | h2
                    · exact Or.inl ⟨t, m, h1⟩
                    · exact ih _ ls hr l h2

/-! ### Claim C3 — Risk step empty-portfolio guard -/

/-- C3: the Risk Metrics Step returns the fixed "no portfolio data
loaded" error string if and only if the portfolio is empty at the
moment of the call, and in that case it returns the state completely
unchanged (no computation, no mutation, no exception). -/
theorem risk_empty_portfolio_guard (spy : Option (List ℚ)) (stdFn : List ℚ → ℚ)
    (sqrt252 : ℚ) (tickers : Option String) (s : DataState) :
    ((calculate_risk_metrics spy stdFn sqrt252 tickers s).2 = some noPortfolioErr
      ↔ s.portfolio = [])
    ∧ (s.portfolio = [] →
        calculate_risk_metrics spy stdFn sqrt252 tickers s = (s, some noPortfolioErr)) := by
  by_cases hp : s.portfolio = []
  · refine ⟨⟨fun _ => hp, fun _ => ?_⟩, fun _ => ?_⟩
    · simp [calculate_risk_metrics, hp]
    · simp [calculate_risk_metrics, hp]
  · refine ⟨⟨fun hres => ?_, fun h => absurd h hp⟩, fun h => absurd h hp⟩
    exfalso
    cases hspy : spy with
    | none =>
        rw [hspy] at hres
        simp only [calculate_risk_metrics, if_neg hp] at hres
        exact absurd hres (by decide)
    | some spyCloses =>
        rw [hspy] at hres
        simp only [calculate_risk_metrics, if_neg hp] at hres
        cases hr : (riskGo stdFn sqrt252 (pctChange spyCloses) (riskTickerList tickers s) s).2 with
        | none => rw [hr] at hres; simp at hres
        | some lines =>
            rw [hr] at hres
            simp only [Option.map_some', Option.some.injEq] at hres
            cases lines with
            | nil =>
                simp only [if_pos rfl] at hres
                exact absurd hres (by decide)
            | cons l ls =>
                rw [if_neg (by simp)] at hres
                have hshape := riskGo_lines_shape stdFn sqrt252 (pctChange spyCloses)
                  (riskTickerList tickers s) s (l :: ls) hr l (List.mem_cons_self l ls)
                have hdata := congrArg (fun x : String => x.data.head?) hres
                simp only at hdata
                have hng : noPortfolioErr.data.head? = some '\u274C' := rfl
                rcases hshape with ⟨t, m, hlm⟩ | ⟨t, hlt⟩
                · subst hlm
                  have h1 : (joinTwoNl (riskLine t m :: ls)).data.head? = some '📊' :=
                    head_joinTwoNl _ _ _ (head_riskLine t m)
                  rw [h1, hng] at hdata
                  exact absurd (Option.some.inj hdata) (by decide)
                · subst hlt
                  have h1 : (joinTwoNl (insuffLine t :: ls)).data.head? = some '⚠' :=
                    head_joinTwoNl _ _ _ (head_insuffLine t)
                  rw [h1, hng] at hdata
                  exact absurd (Option.some.inj hdata) (by decide)

/-- Concrete instantiation of the risk-step guard at the empty state. -/
theorem risk_empty_portfolio_guard_witness :
    reset_state.portfolio = []
    ∧ calculate_risk_metrics none (fun _ => 1) 16 none reset_state
        = (reset_state, some noPortfolioErr) := by
  refine ⟨rfl, ?_⟩
  exact (risk_empty_portfolio_guard none (fun _ => 1) 16 none reset_state).2 rfl

/-! ### Claim C2 — which state keys are guarded by the portfolio -/

/-- The invariant claimed for the Shared Analysis State: every
risk-metrics, forecast, or sentiment key was previously fetched. -/
def stateKeysInv (s : DataState) : Prop :=
  (∀ k ∈ alKeys s.risk_metrics, k ∈ alKeys s.portfolio)
  ∧ (∀ k ∈ alKeys s.forecasts, k ∈ alKeys s.portfolio)
  ∧ (∀ k ∈ alKeys s.sentiment, k ∈ alKeys s.portfolio)

instance (s : DataState) : Decidable (stateKeysInv s) := by
  unfold stateKeysInv
  infer_instance

/-- The part of the invariant the code actually maintains. -/
def riskForecastKeysInv (s : DataState) : Prop :=
  (∀ k ∈ alKeys s.risk_metrics, k ∈ alKeys s.portfolio)
  ∧ (∀ k ∈ alKeys s.forecasts, k ∈ alKeys s.portfolio)

/-- C2 counterexample: one Sentiment invocation from the reset state
stores a sentiment entry for a ticker that was never fetched —
`analyze_sentiment` has no portfolio membership check. -/
theorem sentiment_key_without_portfolio :
    ¬ stateKeysInv (runSteps [Step.sentiment true (1/4) "AAPL"] reset_state) := by
  decide

/-! Structural lemmas for the amended invariant. -/

theorem fetchGo_risk_metrics (o : String → FetchOutcome) (ts : List String)
    (s : DataState) : (fetchGo o ts s).1.risk_metrics = s.risk_metrics := by
  induction ts generalizing s with
  | nil => rfl
  | cons t rest ih =>
      cases ho : o t with
      | ok df =>
          by_cases hd : df = []
          · simp [fetchGo, ho, hd, ih]
          · simp [fetchGo, ho, hd, ih]
      | exn m => simp [fetchGo, ho, ih]

theorem fetchGo_forecasts (o : String → FetchOutcome) (ts : List String)
    (s : DataState) : (fetchGo o ts s).1.forecasts = s.forecasts := by
  induction ts generalizing s with
  | nil => rfl
  | cons t rest ih =>
      cases ho : o t with
      | ok df =>
          by_cases hd : df = []
          · simp [fetchGo, ho, hd, ih]
          · simp [fetchGo, ho, hd, ih]
      | exn m => simp [fetchGo, ho, ih]

theorem fetchGo_portfolio_keys_mono (o : String → FetchOutcome) (ts : List String)
    (s : DataState) {k : String} (h : k ∈ alKeys s.portfolio) :
    k ∈ alKeys (fetchGo o ts s).1.portfolio := by
  induction ts generalizing s with
  | nil => exact h
  | cons t rest ih =>
      cases ho : o t with
      | ok df =>
          by_cases hd : df = []
          · simp only [fetchGo, ho, hd, if_pos rfl]
            exact ih _ h
          · simp only [fetchGo, ho, if_neg hd]
            exact ih _ (mem_alKeys_alSet.mpr (Or.inr h))
      | exn m =>
          simp only [fetchGo, ho]
          exact ih _ h

theorem riskGo_risk_keys (stdFn : List ℚ → ℚ) (sqrt252 : ℚ) (spyRet : List ℚ)
    (ts : List String) (s : DataState) {k : String}
    (h : k ∈ alKeys (riskGo stdFn sqrt252 spyRet ts s).1.risk_metrics) :
    k ∈ alKeys s.risk_metrics ∨ k ∈ alKeys s.portfolio := by
  induction ts generalizing s with
  | nil => exact Or.inl h
  | cons t rest ih =>
      cases hp : alLookup t s.portfolio with
      | none =>
          simp only [riskGo, hp] at h
          exact ih _ h
      | some rows =>
          by_cases hlen : (pctChange (rows.map (·.close))).length < 30
          · simp only [riskGo, hp, if_pos hlen] at h
            exact ih _ h
          · cases hcr : computeRisk stdFn sqrt252 spyRet (pctChange (rows.map (·.close))) with
            | none =>
                simp only [riskGo, hp, if_neg hlen, hcr] at h
                exact Or.inl h
            | some m =>
                simp only [riskGo, hp, if_neg hlen, hcr] at h
                rcases ih _ h with h1 | h1
                · rcases mem_alKeys_alSet.mp h1 with h2 | h2
                  · exact Or.inr (h2 ▸ mem_alKeys_of_alLookup hp)
                  · exact Or.inl h2
                · exact Or.inr h1

theorem runStep_preserves_rfInv (st : Step) (s : DataState)
    (h : riskForecastKeysInv s) : riskForecastKeysInv (runStep st s) := by
  obtain ⟨hr, hf⟩ := h
  cases st with
  | fetch o ts =>
      refine ⟨fun k hk => ?_, fun k hk => ?_⟩
      · rw [runStep, runStepR] at hk ⊢
        show k ∈ alKeys (fetchGo o (fetchTickerList ts) s).1.portfolio
        rw [show (fetch_portfolio_data o ts s).1 = (fetchGo o (fetchTickerList ts) s).1 from rfl,
          fetchGo_risk_metrics] at hk
        exact fetchGo_portfolio_keys_mono o _ s (hr k hk)
      · rw [runStep, runStepR] at hk ⊢
        show k ∈ alKeys (fetchGo o (fetchTickerList ts) s).1.portfolio
        rw [show (fetch_portfolio_data o ts s).1 = (fetchGo o (fetchTickerList ts) s).1 from rfl,
          fetchGo_forecasts] at hk
        exact fetchGo_portfolio_keys_mono o _ s (hf k hk)
  | risk spy stdFn sqrt252 tickers =>
      by_cases hp : s.portfolio = []
      · have : runStep (.risk spy stdFn sqrt252 tickers) s = s := by
          simp [runStep, runStepR, calculate_risk_metrics, hp]
        rw [this]
        exact ⟨hr, hf⟩
      · cases hspy : spy with
        | none =>
            have : runStep (.risk none stdFn sqrt252 tickers) s = s := by
              simp [runStep, runStepR, calculate_risk_metrics, hp]
            rw [this]
            exact ⟨hr, hf⟩
        | some spyCloses =>
            have hst : runStep (.risk (some spyCloses) stdFn sqrt252 tickers) s
                = (riskGo stdFn sqrt252 (pctChange spyCloses) (riskTickerList tickers s) s).1 := by
              simp [runStep, runStepR, calculate_risk_metrics, hp]
            rw [hst]
            refine ⟨fun k hk => ?_, fun k hk => ?_⟩
            · rw [riskGo_portfolio]
              rcases riskGo_risk_keys stdFn sqrt252 _ _ s hk with h1 | h1
              · exact hr k h1
              · exact h1
            · rw [riskGo_portfolio]
              rw [riskGo_forecasts] at hk
              exact hf k hk
  | forecast prophetYhat ticker days =>
      cases hp : alLookup ticker s.portfolio with
      | none =>
          have : runStep (.forecast prophetYhat ticker days) s = s := by
            simp [runStep, runStepR, ensemble_forecast, hp]
          rw [this]
          exact ⟨hr, hf⟩
      | some df =>
          have hst : (runStep (.forecast prophetYhat ticker days) s).portfolio = s.portfolio
              ∧ (runStep (.forecast prophetYhat ticker days) s).risk_metrics = s.risk_metrics
              ∧ ∀ k ∈ alKeys (runStep (.forecast prophetYhat ticker days) s).forecasts,
                  k = ticker ∨ k ∈ alKeys s.forecasts := by
            refine ⟨?_, ?_, fun k hk => ?_⟩
            · simp [runStep, runStepR, ensemble_forecast, hp]
            · simp [runStep, runStepR, ensemble_forecast, hp]
            · simp only [runStep, runStepR, ensemble_forecast, hp] at hk
              exact mem_alKeys_alSet.mp hk
          refine ⟨fun k hk => ?_, fun k hk => ?_⟩
          · rw [hst.1]
            rw [hst.2.1] at hk
            exact hr k hk
          · rw [hst.1]
            rcases hst.2.2 k hk with h1 | h1
            · exact h1 ▸ mem_alKeys_of_alLookup hp
            · exact hf k h1
  | sentiment enableSent score ticker =>
      by_cases he : enableSent
      · have : (runStep (.sentiment enableSent score ticker) s).portfolio = s.portfolio
            ∧ (runStep (.sentiment enableSent score ticker) s).risk_metrics = s.risk_metrics
            ∧ (runStep (.sentiment enableSent score ticker) s).forecasts = s.forecasts := by
          refine ⟨?_, ?_, ?_⟩ <;> simp [runStep, runStepR, analyze_sentiment, he]
        exact ⟨fun k hk => this.1 ▸ hr k (this.2.1 ▸ hk),
          fun k hk => this.1 ▸ hf k (this.2.2 ▸ hk)⟩
      · have : runStep (.sentiment enableSent score ticker) s = s := by
          simp [runStep, runStepR, analyze_sentiment, he]
        rw [this]
        exact ⟨hr, hf⟩
  | ranking => exact ⟨hr, hf⟩

theorem runSteps_preserves_rfInv (steps : List Step) (s : DataState)
    (h : riskForecastKeysInv s) : riskForecastKeysInv (runSteps steps s) := by
  induction steps generalizing s with
  | nil => exact h
  | cons st rest ih => exact ih _ (runStep_preserves_rfInv st s h)

/-- C2 (amended): after any sequence of step invocations from the reset
state, every key of `risk_metrics` and of `forecasts` is a key of
`portfolio`; the sentiment mapping is exempt because
`analyze_sentiment` stores without checking the portfolio. -/
theorem risk_forecast_keys_need_portfolio (steps : List Step) :
    riskForecastKeysInv (runSteps steps reset_state) :=
  runSteps_preserves_rfInv steps reset_state
    ⟨fun k hk => by simp [reset_state, alKeys] at hk,
     fun k hk => by simp [reset_state, alKeys] at hk⟩

/-! ### Ranking lemmas (claim C1) -/

theorem insertDesc_perm (x : String × ℚ) (l : List (String × ℚ)) :
    List.Perm (insertDesc x l) (x :: l) := by
  induction l with
  | nil => rfl
  | cons y ys ih =>
      by_cases h : y.2 > x.2
      · rw [insertDesc, if_pos h]
        exact List.Perm.trans (List.Perm.cons y ih) (List.Perm.swap x y ys)
      · rw [insertDesc, if_neg h]

theorem sortDesc_perm (l : List (String × ℚ)) : List.Perm (sortDesc l) l := by
  induction l with
  | nil => rfl
  | cons x xs ih =>
      exact List.Perm.trans (insertDesc_perm x (sortDesc xs)) (List.Perm.cons x ih)

theorem insertDesc_pairwise (x : String × ℚ) (l : List (String × ℚ))
    (h : List.Pairwise (fun a b : String × ℚ => b.2 ≤ a.2) l) :
    List.Pairwise (fun a b : String × ℚ => b.2 ≤ a.2) (insertDesc x l) := by
  induction l with
  | nil => simp [insertDesc]
  | cons y ys ih =>
      rcases List.pairwise_cons.mp h with ⟨hy, hys⟩
      by_cases hc : y.2 > x.2
      · rw [insertDesc, if_pos hc]
        refine List.pairwise_cons.mpr ⟨fun z hz => ?_, ih hys⟩
        have hz' := (insertDesc_perm x ys).mem_iff.mp hz
        rcases List.mem_cons.mp hz' with h1 | h1
        · exact h1 ▸ le_of_lt hc
        · exact hy z h1
      · rw [insertDesc, if_neg hc]
        push_neg at hc
        refine List.pairwise_cons.mpr ⟨fun z hz => ?_, h⟩
        rcases List.mem_cons.mp hz with h1 | h1
        · exact h1 ▸ hc
        · exact le_trans (hy z h1) hc

theorem sortDesc_pairwise (l : List (String × ℚ)) :
    List.Pairwise (fun a b : String × ℚ => b.2 ≤ a.2) (sortDesc l) := by
  induction l with
  | nil => simp [sortDesc]
  | cons x xs ih => exact insertDesc_pairwise x (sortDesc xs) ih

theorem sortDesc_eq_self (l : List (String × ℚ))
    (h : List.Pairwise (fun a b : String × ℚ => b.2 ≤ a.2) l) : sortDesc l = l := by
  induction l with
  | nil => rfl
  | cons x xs ih =>
      rcases List.pairwise_cons.mp h with ⟨hx, hxs⟩
      rw [sortDesc, ih hxs]
      cases xs with
      | nil => rfl
      | cons y ys =>
          rw [insertDesc, if_neg ?_]
          push_neg
          exact hx y (List.mem_cons_self y ys)

theorem alLookup_of_mem_nodup {α : Type} {t : String} {v : α} {l : List (String × α)}
    (hnd : (l.map Prod.fst).Nodup) (hm : (t, v) ∈ l) : alLookup t l = some v := by
  induction l with
  | nil => cases hm
  | cons p rest ih =>
      rcases List.mem_cons.mp hm with h1 | h1
      · rw [← h1, alLookup, if_pos rfl]
      · have hne : p.1 ≠ t := by
          intro he
          have : t ∈ rest.map Prod.fst :=
            List.mem_map.mpr ⟨(t, v), h1, rfl⟩
          rw [List.map_cons] at hnd
          exact (List.nodup_cons.mp hnd).1 (he ▸ this)
        rw [alLookup, if_neg hne]
        exact ih (List.nodup_cons.mp (List.map_cons Prod.fst p rest ▸ hnd)).2 h1

/-! ### Claim C1 — composite score and ranking round-trip -/

/-- C1: for every ticker with a risk-metrics entry, the ranking built
by `compare_portfolio` scores it `0.5 × sharpe + 0.1 × change_pct`
(0 when it has no forecast); the ranking is a permutation of exactly
those scored tickers, its scores are non-increasing, recomputing each
score from the stored risk/forecast values and re-sorting reproduces
the ranking exactly, and the returned report is the numbered rendering
of that ranking. -/
theorem ranking_composite_scores (s : DataState)
    (hnd : (s.risk_metrics.map Prod.fst).Nodup) :
    List.Perm (rankingOf s) (scoredList s)
    ∧ List.Pairwise (fun a b : String × ℚ => b.2 ≤ a.2) (rankingOf s)
    ∧ (∀ p ∈ rankingOf s, p.2 = compositeScore s p.1)
    ∧ sortDesc ((rankingOf s).map (fun p => (p.1, compositeScore s p.1))) = rankingOf s
    ∧ (s.risk_metrics ≠ [] →
        compare_portfolio s = "🏆 PORTFOLIO RANKING:\n" ++ rankLines 1 (rankingOf s)) := by
  have hperm : List.Perm (rankingOf s) (scoredList s) := sortDesc_perm (scoredList s)
  have hpw : List.Pairwise (fun a b : String × ℚ => b.2 ≤ a.2) (rankingOf s) :=
    sortDesc_pairwise (scoredList s)
  have hscore : ∀ p ∈ rankingOf s, p.2 = compositeScore s p.1 := by
    intro p hp
    have hps : p ∈ scoredList s := hperm.mem_iff.mp hp
    rcases List.mem_map.mp hps with ⟨⟨t, m⟩, htm, hpe⟩
    have hl : alLookup t s.risk_metrics = some m := alLookup_of_mem_nodup hnd htm
    rw [← hpe]
    simp only [compositeScore, hl]
  refine ⟨hperm, hpw, hscore, ?_, fun hne => ?_⟩
  · have hmap : (rankingOf s).map (fun p => (p.1, compositeScore s p.1)) = rankingOf s := by
      have hid : ∀ p ∈ rankingOf s, (p.1, compositeScore s p.1) = p := by
        intro p hp
        rw [← hscore p hp]
      calc (rankingOf s).map (fun p => (p.1, compositeScore s p.1))
          = (rankingOf s).map id := List.map_congr_left hid
        _ = rankingOf s := List.map_id _
    rw [hmap]
    exact sortDesc_eq_self (rankingOf s) hpw
  · rw [compare_portfolio, if_neg hne]

/-- Concrete state for the C1 witness: two risk entries, one forecast. -/
def wRankState : DataState :=
  { portfolio := []
    forecasts := [("AAA", { current := 10, predicted := 15, change_pct := 50 })]
    risk_metrics :=
      [("AAA", { sharpe := 2, beta := 1, var_95 := 0, volatility := 0 }),
       ("BBB", { sharpe := 4, beta := 1, var_95 := 0, volatility := 0 })]
    sentiment := [] }

theorem ranking_composite_scores_witness :
    List.Perm (rankingOf wRankState) (scoredList wRankState)
    ∧ List.Pairwise (fun a b : String × ℚ => b.2 ≤ a.2) (rankingOf wRankState)
    ∧ (∀ p ∈ rankingOf wRankState, p.2 = compositeScore wRankState p.1)
    ∧ sortDesc ((rankingOf wRankState).map (fun p => (p.1, compositeScore wRankState p.1)))
        = rankingOf wRankState
    ∧ (wRankState.risk_metrics ≠ [] →
        compare_portfolio wRankState
          = "🏆 PORTFOLIO RANKING:\n" ++ rankLines 1 (rankingOf wRankState)) :=
  ranking_composite_scores wRankState (by decide)

/-! ### Risk-step lookup lemmas (claim C5) -/

/-- Window length for beta: `min(len(returns), len(spy_returns))`. -/
def alignedWindow (returns spyRet : List ℚ) : ℕ := min returns.length spyRet.length

theorem length_pySliceLast (l : List ℚ) (n : ℕ) (h1 : 0 < n) (h2 : n ≤ l.length) :
    (pySliceLast l n).length = n := by
  rw [pySliceLast, if_neg (Nat.pos_iff_ne_zero.mp h1)]
  rw [List.length_drop]
  omega

/-- With a non-empty benchmark return series the per-ticker computation
does not raise, and its value is the explicit record below. -/
theorem computeRisk_eq_of_spy_ne (stdFn : List ℚ → ℚ) (sqrt252 : ℚ)
    (spyRet returns : List ℚ) (hspy : spyRet ≠ []) (hr : returns ≠ []) :
    computeRisk stdFn sqrt252 spyRet returns
      = some
        { sharpe :=
            if 0 < stdFn returns then
              sqrt252 * listMean (returns.map (fun r => r - 0.02 / 252)) / stdFn returns
            else 0
          beta :=
            if 0 < sampleVar (pySliceLast spyRet (alignedWindow returns spyRet)) then
              sampleCov (pySliceLast returns (alignedWindow returns spyRet))
                  (pySliceLast spyRet (alignedWindow returns spyRet))
                / sampleVar (pySliceLast spyRet (alignedWindow returns spyRet))
            else 1
          var_95 := percentile5 returns
          volatility := stdFn returns * sqrt252 } := by
  have hn : 0 < alignedWindow returns spyRet :=
    Nat.lt_min.mpr ⟨List.length_pos.mpr hr, List.length_pos.mpr hspy⟩
  have hlenR : (pySliceLast returns (alignedWindow returns spyRet)).length
      = alignedWindow returns spyRet :=
    length_pySliceLast _ _ hn (Nat.min_le_left _ _)
  have hlenS : (pySliceLast spyRet (alignedWindow returns spyRet)).length
      = alignedWindow returns spyRet :=
    length_pySliceLast _ _ hn (Nat.min_le_right _ _)
  rw [computeRisk]
  rw [show min returns.length spyRet.length = alignedWindow returns spyRet from rfl]
  rw [if_pos (by rw [hlenR]; exact hn)]
  rw [npCov, if_pos (hlenR.trans hlenS.symm)]

/-- With an empty benchmark return series and a ticker series of at
least one return, `min_len = 0`, `iloc[-0:]` keeps the full ticker
series, the `len(aligned_returns) > 0` guard passes, and `np.cov`
raises `ValueError` on the mismatched lengths. -/
theorem computeRisk_none_of_empty_spy (stdFn : List ℚ → ℚ) (sqrt252 : ℚ)
    (returns : List ℚ) (hr : returns ≠ []) :
    computeRisk stdFn sqrt252 [] returns = none := by
  rw [computeRisk]
  simp only [List.length_nil, Nat.min_zero, pySliceLast, eq_self_iff_true, if_true]
  rw [if_pos (List.length_pos.mpr hr)]
  rw [npCov, if_neg (by simp [List.length_pos.mpr hr, Nat.pos_iff_ne_zero.mp
    (List.length_pos.mpr hr)])]

theorem riskGo_risk_lookup_stable (stdFn : List ℚ → ℚ) (sqrt252 : ℚ) (spyRet : List ℚ)
    {t : String} {ts : List String} (s : DataState) (h : t ∉ ts) :
    alLookup t (riskGo stdFn sqrt252 spyRet ts s).1.risk_metrics
      = alLookup t s.risk_metrics := by
  induction ts generalizing s with
  | nil => rfl
  | cons u rest ih =>
      have hu : u ≠ t := fun e => h (e ▸ List.mem_cons_self u rest)
      have ht : t ∉ rest := fun e => h (List.mem_cons_of_mem u e)
      cases hp : alLookup u s.portfolio with
      | none => simp only [riskGo, hp]; exact ih _ ht
      | some rows =>
          by_cases hlen : (pctChange (rows.map (·.close))).length < 30
          · simp only [riskGo, hp, if_pos hlen]
            exact ih _ ht
          · cases hcr : computeRisk stdFn sqrt252 spyRet (pctChange (rows.map (·.close))) with
            | none => simp only [riskGo, hp, if_neg hlen, hcr]
            | some m =>
                simp only [riskGo, hp, if_neg hlen, hcr]
                rw [ih _ ht]
                exact alLookup_alSet_ne _ _ hu

theorem riskGo_lookup_processed (stdFn : List ℚ → ℚ) (sqrt252 : ℚ) (spyRet : List ℚ)
    (hspy : spyRet ≠ []) {t : String} {rows : List PriceRow} {ts : List String}
    (s : DataState) (hp : alLookup t s.portfolio = some rows) (ht : t ∈ ts)
    (hlen : ¬ (pctChange (rows.map (·.close))).length < 30) {m : RiskMetric}
    (hm : computeRisk stdFn sqrt252 spyRet (pctChange (rows.map (·.close))) = some m) :
    alLookup t (riskGo stdFn sqrt252 spyRet ts s).1.risk_metrics = some m := by
  induction ts generalizing s with
  | nil => cases ht
  | cons u rest ih =>
      by_cases hrest : t ∈ rest
      · cases hpu : alLookup u s.portfolio with
        | none =>
            simp only [riskGo, hpu]
            exact ih _ hp hrest
        | some rowsU =>
            by_cases hlenU : (pctChange (rowsU.map (·.close))).length < 30
            · simp only [riskGo, hpu, if_pos hlenU]
              exact ih _ hp hrest
            · have hneU : pctChange (rowsU.map (·.close)) ≠ [] := by
                intro he
                rw [he] at hlenU
                exact hlenU (by simp)
              obtain ⟨mU, hmU⟩ : ∃ x, computeRisk stdFn sqrt252 spyRet
                  (pctChange (rowsU.map (·.close))) = some x :=
                ⟨_, computeRisk_eq_of_spy_ne stdFn sqrt252 spyRet _ hspy hneU⟩
              simp only [riskGo, hpu, if_neg hlenU, hmU]
              exact ih _ hp hrest
      · have hu : u = t := by
          rcases List.mem_cons.mp ht with h1 | h2
          · exact h1.symm
          · exact absurd h2 hrest
        subst hu
        simp only [riskGo, hp, if_neg hlen, hm]
        rw [riskGo_risk_lookup_stable stdFn sqrt252 spyRet _ hrest]
        exact alLookup_alSet_self _ _ _

/-- With an empty benchmark return series, the loop raises at the first
processed ticker: no report is produced. -/
theorem riskGo_raises_of_empty_spy (stdFn : List ℚ → ℚ) (sqrt252 : ℚ)
    {t : String} {rows : List PriceRow} {ts : List String} (s : DataState)
    (hp : alLookup t s.portfolio = some rows) (ht : t ∈ ts)
    (hlen : ¬ (pctChange (rows.map (·.close))).length < 30) :
    (riskGo stdFn sqrt252 [] ts s).2 = none := by
  induction ts generalizing s with
  | nil => cases ht
  | cons u rest ih =>
      cases hpu : alLookup u s.portfolio with
      | none =>
          have hut : u ≠ t := by
            intro e
            rw [e, hp] at hpu
            cases hpu
          have ht' : t ∈ rest := by
            rcases List.mem_cons.mp ht with h1 | h1
            · exact absurd h1.symm hut
            · exact h1
          simp only [riskGo, hpu]
          exact ih _ hp ht'
      | some rowsU =>
          by_cases hlenU : (pctChange (rowsU.map (·.close))).length < 30
          · have ht' : t ∈ rest := by
              rcases List.mem_cons.mp ht with h1 | h1
              · exfalso
                rw [h1, hpu] at hp
                apply hlen
                rw [← Option.some.inj hp]
                exact hlenU
              · exact h1
            simp only [riskGo, hpu, if_pos hlenU]
            rw [ih _ hp ht']
            rfl
          · have hneU : pctChange (rowsU.map (·.close)) ≠ [] := by
              intro he
              rw [he] at hlenU
              exact hlenU (by simp)
            simp only [riskGo, hpu, if_neg hlenU,
              computeRisk_none_of_empty_spy stdFn sqrt252 _ hneU]

/-! ### Claim C5 — beta and Sharpe fallbacks, corrected -/

/-- A 31-row synthetic price series (30 daily returns). -/
def wRows : List PriceRow :=
  (List.range 31).map (fun i => { date := (i : ℤ), close := 1 })

/-- Portfolio state holding the synthetic series under "AAA". -/
def wRiskState : DataState :=
  { portfolio := [("AAA", wRows)], forecasts := [], risk_metrics := [], sentiment := [] }

/-- C5 counterexample: a processed ticker (31 rows, 30 returns) with an
empty benchmark return series.  The aligned window is empty
(`min_len = 0`), yet the step stores nothing and aborts: Python's
`iloc[-0:]` keeps the full ticker series, `len(aligned_returns) > 0`
passes, and `np.cov` raises `ValueError` — the `beta = 1.0` fallback
the claim asserts for an empty aligned window is never stored. -/
theorem risk_empty_benchmark_raises :
    alLookup "AAA" wRiskState.portfolio = some wRows
    ∧ 30 ≤ (pctChange (wRows.map (·.close))).length
    ∧ min (pctChange (wRows.map (·.close))).length (pctChange ([] : List ℚ)).length = 0
    ∧ (calculate_risk_metrics (some []) (fun _ => 1) 16 (some "AAA") wRiskState).2 = none
    ∧ alLookup "AAA" (calculate_risk_metrics (some []) (fun _ => 1) 16 (some "AAA")
        wRiskState).1.risk_metrics = none := by
  refine ⟨by decide, by decide, by decide, by decide, by decide⟩

/-- C5 (amended): for every processed ticker (present in the portfolio,
requested, with at least 30 returns), when the benchmark return series
is non-empty the risk step stores a record whose Sharpe is 0 whenever
the return standard deviation is 0 and otherwise
`sqrt(252) × mean(excess return) / std`, and whose beta is 1.0 whenever
the benchmark variance over the right-aligned common window is 0 and
otherwise covariance over that variance; when the benchmark return
series is empty the step does not store a fallback — it raises an
uncaught `ValueError` out of `np.cov`. -/
theorem risk_beta_sharpe_fallbacks (spyCloses : List ℚ) (stdFn : List ℚ → ℚ)
    (sqrt252 : ℚ) (tickers : Option String) (s : DataState) (t : String)
    (rows : List PriceRow)
    (hp : alLookup t s.portfolio = some rows)
    (ht : t ∈ riskTickerList tickers s)
    (hlen : 30 ≤ (pctChange (rows.map (·.close))).length)
    (hspy : pctChange spyCloses ≠ []) :
    (∃ m : RiskMetric,
      computeRisk stdFn sqrt252 (pctChange spyCloses) (pctChange (rows.map (·.close)))
        = some m
      ∧ alLookup t (calculate_risk_metrics (some spyCloses) stdFn sqrt252 tickers
          s).1.risk_metrics = some m
      ∧ (stdFn (pctChange (rows.map (·.close))) = 0 → m.sharpe = 0)
      ∧ (0 < stdFn (pctChange (rows.map (·.close))) →
          m.sharpe = sqrt252
            * listMean ((pctChange (rows.map (·.close))).map (fun r => r - 0.02 / 252))
            / stdFn (pctChange (rows.map (·.close))))
      ∧ (sampleVar (pySliceLast (pctChange spyCloses)
            (alignedWindow (pctChange (rows.map (·.close))) (pctChange spyCloses))) = 0 →
          m.beta = 1)
      ∧ (0 < sampleVar (pySliceLast (pctChange spyCloses)
            (alignedWindow (pctChange (rows.map (·.close))) (pctChange spyCloses))) →
          m.beta = sampleCov
              (pySliceLast (pctChange (rows.map (·.close)))
                (alignedWindow (pctChange (rows.map (·.close))) (pctChange spyCloses)))
              (pySliceLast (pctChange spyCloses)
                (alignedWindow (pctChange (rows.map (·.close))) (pctChange spyCloses)))
            / sampleVar (pySliceLast (pctChange spyCloses)
                (alignedWindow (pctChange (rows.map (·.close))) (pctChange spyCloses)))))
    ∧ (calculate_risk_metrics (some []) stdFn sqrt252 tickers s).2 = none := by
  have hpne : s.portfolio ≠ [] := by
    intro he
    rw [he] at hp
    cases hp
  have hne : pctChange (rows.map (·.close)) ≠ [] := by
    intro he
    rw [he] at hlen
    simp at hlen
  constructor
  · have hm := computeRisk_eq_of_spy_ne stdFn sqrt252 (pctChange spyCloses)
      (pctChange (rows.map (·.close))) hspy hne
    refine ⟨_, hm, ?_, ?_, ?_, ?_, ?_⟩
    · show alLookup t (calculate_risk_metrics (some spyCloses) stdFn sqrt252 tickers
          s).1.risk_metrics = _
      simp only [calculate_risk_metrics, if_neg hpne]
      exact riskGo_lookup_processed stdFn sqrt252 (pctChange spyCloses) hspy s hp ht
        (not_lt.mpr hlen) hm
    · intro hstd
      simp [hstd]
    · intro hstd
      simp [if_pos hstd]
    · intro hvar
      simp [hvar]
    · intro hvar
      simp [if_pos hvar]
  · simp only [calculate_risk_metrics, if_neg hpne]
    rw [show pctChange ([] : List ℚ) = [] from rfl]
    rw [riskGo_raises_of_empty_spy stdFn sqrt252 s hp ht (not_lt.mpr hlen)]
    rfl

theorem risk_beta_sharpe_fallbacks_witness :
    (30 ≤ (pctChange (wRows.map (·.close))).length
      ∧ pctChange ([1, 2, 3, 4, 5] : List ℚ) ≠ [])
    ∧ ∃ m : RiskMetric,
        computeRisk (fun _ => 1) 16 (pctChange [1, 2, 3, 4, 5])
            (pctChange (wRows.map (·.close))) = some m
        ∧ alLookup "AAA" (calculate_risk_metrics (some [1, 2, 3, 4, 5]) (fun _ => 1) 16
            (some "AAA") wRiskState).1.risk_metrics = some m := by
  refine ⟨⟨by decide, by decide⟩, ?_⟩
  obtain ⟨⟨m, h1, h2, _⟩, _⟩ := risk_beta_sharpe_fallbacks [1, 2, 3, 4, 5] (fun _ => 1) 16
    (some "AAA") wRiskState "AAA" wRows (by decide) (by decide) (by decide) (by decide)
  exact ⟨m, h1, h2⟩

/-! ### Claim C6 — forecast blend and stored change_pct -/

theorem getD_zipWith (f : ℚ → ℚ → ℚ) (a b : List ℚ) (i : ℕ)
    (hi : i < (List.zipWith f a b).length) :
    (List.zipWith f a b).getD i 0 = f (a.getD i 0) (b.getD i 0) := by
  induction a generalizing b i with
  | nil => simp at hi
  | cons x xs ih =>
      cases b with
      | nil => simp at hi
      | cons y ys =>
          cases i with
          | zero => rfl
          | succ j =>
              simp only [List.zipWith_cons_cons, List.length_cons, Nat.succ_lt_succ_iff] at hi
              simpa using ih ys j hi

theorem length_prophetSlice (prophetYhat : List ℚ) (days : ℕ)
    (h : days ≤ prophetYhat.length) : (prophetSlice prophetYhat days).length = days := by
  simp [prophetSlice, Nat.sub_sub_self h]

theorem length_lrProjection (df : List PriceRow) (days : ℕ) :
    (lrProjection df days).length = days := by
  simp only [lrProjection, List.length_map, List.length_range]

theorem length_blendedProjection (prophetYhat : List ℚ) (df : List PriceRow) (days : ℕ)
    (h : days ≤ prophetYhat.length) :
    (blendedProjection prophetYhat df days).length = days := by
  simp [blendedProjection, length_prophetSlice prophetYhat days h, length_lrProjection]

/-- C6: for a ticker present in the portfolio (with a non-empty series
and a positive horizon covered by the seasonal model's output), the
Forecast Step stores under that ticker a record whose `current` is the
last historical close, whose `predicted` is the final value of the
blended projection, where the blend is elementwise
`0.7 × seasonal + 0.3 × linear-trend` over the whole horizon, and whose
`change_pct` is `100 × (predicted − current) / current`. -/
theorem forecast_blend_and_change (prophetYhat : List ℚ) (t : String) (days : ℕ)
    (s : DataState) (df : List PriceRow)
    (hp : alLookup t s.portfolio = some df)
    (hdf : df ≠ [])
    (hdays : 0 < days)
    (hlen : days ≤ prophetYhat.length) :
    ∃ f : ForecastEntry,
      alLookup t (ensemble_forecast prophetYhat t days s).1.forecasts = some f
      ∧ f.current = (df.map (·.close)).getLastD 0
      ∧ f.predicted = (blendedProjection prophetYhat df days).getLastD 0
      ∧ (blendedProjection prophetYhat df days).length = days
      ∧ (∀ i < days,
          (blendedProjection prophetYhat df days).getD i 0
            = 0.7 * (prophetSlice prophetYhat days).getD i 0
              + 0.3 * (lrProjection df days).getD i 0)
      ∧ f.change_pct = 100 * (f.predicted - f.current) / f.current := by
  refine ⟨{ current := (df.map (·.close)).getLastD 0,
            predicted := (blendedProjection prophetYhat df days).getLastD 0,
            change_pct := ((blendedProjection prophetYhat df days).getLastD 0
              - (df.map (·.close)).getLastD 0) / (df.map (·.close)).getLastD 0 * 100 },
    ?_, rfl, rfl, length_blendedProjection prophetYhat df days hlen, fun i hi => ?_, ?_⟩
  · simp only [ensemble_forecast, hp]
    exact alLookup_alSet_self _ _ _
  · refine getD_zipWith _ _ _ i ?_
    show i < (blendedProjection prophetYhat df days).length
    rw [length_blendedProjection prophetYhat df days hlen]
    exact hi
  · show _ / _ * 100 = 100 * _ / _
    ring

/-- Two-row series and a four-value seasonal output for the C6 witness. -/
def wForecastState : DataState :=
  { portfolio := [("AAA", [{ date := 0, close := 1 }, { date := 1, close := 2 }])]
    forecasts := [], risk_metrics := [], sentiment := [] }

theorem forecast_blend_and_change_witness :
    (0 < 2 ∧ (2 : ℕ) ≤ ([1, 1, 1, 1] : List ℚ).length)
    ∧ ∃ f : ForecastEntry,
      alLookup "AAA" (ensemble_forecast [1, 1, 1, 1] "AAA" 2 wForecastState).1.forecasts
        = some f
      ∧ f.current = (([{ date := 0, close := 1 }, { date := 1, close := 2 }] :
            List PriceRow).map (·.close)).getLastD 0
      ∧ f.predicted = (blendedProjection [1, 1, 1, 1]
            [{ date := 0, close := 1 }, { date := 1, close := 2 }] 2).getLastD 0
      ∧ (blendedProjection [1, 1, 1, 1]
            [{ date := 0, close := 1 }, { date := 1, close := 2 }] 2).length = 2
      ∧ (∀ i < 2,
          (blendedProjection [1, 1, 1, 1]
              [{ date := 0, close := 1 }, { date := 1, close := 2 }] 2).getD i 0
            = 0.7 * (prophetSlice [1, 1, 1, 1] 2).getD i 0
              + 0.3 * (lrProjection
                  [{ date := 0, close := 1 }, { date := 1, close := 2 }] 2).getD i 0)
      ∧ f.change_pct = 100 * (f.predicted - f.current) / f.current :=
  ⟨⟨by decide, by decide⟩,
    forecast_blend_and_change [1, 1, 1, 1] "AAA" 2 wForecastState
      [{ date := 0, close := 1 }, { date := 1, close := 2 }]
      (by decide) (by decide) (by decide) (by decide)⟩

/-! ### Manual-mode lemmas (claim C7) -/

theorem runPlan_append (p q : List (String × Step)) (s : DataState) :
    runPlan (p ++ q) s
      = ((runPlan q (runPlan p s).1).1, (runPlan p s).2 ++ (runPlan q (runPlan p s).1).2) := by
  induction p generalizing s with
  | nil => simp [runPlan]
  | cons a rest ih =>
      rcases a with ⟨name, st⟩
      simp [runPlan, ih]

theorem runPlan_names (p : List (String × Step)) (s : DataState) :
    (runPlan p s).2.map (·.step) = p.map Prod.fst := by
  induction p generalizing s with
  | nil => rfl
  | cons a rest ih =>
      rcases a with ⟨name, st⟩
      simp [runPlan, ih]

theorem getLastD_concat_entry {α : Type} (l : List α) (a : α) :
    ∀ d, (l ++ [a]).getLastD d = a := by
  induction l with
  | nil => intro d; rfl
  | cons x xs ih =>
      intro d
      rw [List.cons_append, List.getLastD_cons]
      exact ih x

theorem runPlan_ranking_tail (pre : List (String × Step)) (n : String) (s : DataState) :
    runPlan (pre ++ [(n, Step.ranking)]) s
      = ((runPlan pre s).1,
         (runPlan pre s).2 ++ [{ step := n, result := compare_portfolio (runPlan pre s).1 }]) := by
  rw [runPlan_append]
  rfl

/-! ### Claim C7 — Manual mode runs the fixed sequence -/

/-- C7: a Manual-mode run logs exactly Fetch once, Risk once, one
Forecast per input ticker in input order, one Sentiment per input
ticker in input order exactly when both the caller flag and the
configuration enable it, then Ranking once — each step's result
appended in call order — and its `final_response` is the ranking report
computed on the final shared state. -/
theorem manual_fixed_sequence (fetchO : String → FetchOutcome) (spy : Option (List ℚ))
    (stdFn : List ℚ → ℚ) (sqrt252 : ℚ) (prophetO : String → List ℚ)
    (sentO : String → ℚ) (enableSent : Bool) (tickers : String)
    (forecast_days : ℕ) (include_sentiment : Bool) :
    (run_manual fetchO spy stdFn sqrt252 prophetO sentO enableSent tickers
        forecast_days include_sentiment).steps.map (·.step)
      = ["Fetching Data", "Risk Analysis"]
        ++ (pySplitComma tickers).map (fun t => "Forecasting " ++ pyStrip t)
        ++ (if include_sentiment && enableSent then
              (pySplitComma tickers).map (fun t => "Sentiment " ++ pyStrip t)
            else [])
        ++ ["Portfolio Ranking"]
    ∧ (run_manual fetchO spy stdFn sqrt252 prophetO sentO enableSent tickers
        forecast_days include_sentiment).final_response
      = compare_portfolio (run_manual fetchO spy stdFn sqrt252 prophetO sentO enableSent
          tickers forecast_days include_sentiment).data_state := by
  constructor
  · show (runPlan (manualPlan fetchO spy stdFn sqrt252 prophetO sentO enableSent tickers
        forecast_days include_sentiment) reset_state).2.map (·.step) = _
    rw [runPlan_names, manualPlan]
    by_cases hs : include_sentiment && enableSent
    · simp [hs, Function.comp_def]
    · simp [hs, Function.comp_def]
  · show ((runPlan (manualPlan fetchO spy stdFn sqrt252 prophetO sentO enableSent tickers
        forecast_days include_sentiment) reset_state).2.getLastD
          { step := "", result := "" }).result
      = compare_portfolio (runPlan (manualPlan fetchO spy stdFn sqrt252 prophetO sentO
          enableSent tickers forecast_days include_sentiment) reset_state).1
    rw [manualPlan]
    rw [show ∀ a b c d : List (String × Step), a ++ b ++ c ++ d = (a ++ b ++ c) ++ d from
      fun a b c d => by simp [List.append_assoc]]
    rw [runPlan_ranking_tail]
    rw [getLastD_concat_entry]

/-! ### Graph-execution bounds (claims C8, C9) -/

theorem graphGo_le (llm : ℕ → Bool) : ∀ (fuel i : ℕ), (graphGo llm i fuel).1 ≤ fuel
  | 0, i => by simp [graphGo]
  | 1, i => by by_cases h : llm i <;> simp [graphGo, h]
  | (n + 2), i => by
      by_cases h : llm i
      · have hrec := graphGo_le llm n (i + 1)
        simp only [graphGo, h, if_pos]
        omega
      · simp [graphGo, h]

theorem graphExec_rounds_le (llm : ℕ → Bool) (limit : ℕ) :
    (graphExec llm limit).rounds ≤ limit := by
  unfold graphExec
  by_cases h : (graphGo llm 0 limit).2
  · simp only [h, if_pos]
    exact graphGo_le llm limit 0
  · simp only [h, if_neg]
    simp [ExecResult.rounds]

/-! ### Claim C8 — the run is not bounded by 15 rounds, but every call is bounded -/

/-- C8 counterexample: a run where the streamed execution finishes in
one round and the follow-up `invoke` spins against an always-tool model
executes 26 super-steps in total — more than the claimed fixed maximum
of 15. -/
theorem autonomous_run_exceeds_15_rounds :
    totalRounds (run_autonomous (fun _ => false) (fun _ => true) "rank my portfolio") = 26
    ∧ ¬ totalRounds (run_autonomous (fun _ => false) (fun _ => true) "rank my portfolio")
        ≤ 15 := by
  constructor
  · decide
  · decide

/-- C8 (amended): every graph call inside `run_autonomous` is bounded —
the streamed execution by the explicit 15-round recursion limit and the
follow-up bare `invoke` by the library default of 25 — so every
Autonomous-mode run terminates, within 40 super-steps in total, even
against a model that would cycle indefinitely. -/
theorem autonomous_calls_bounded (f g : ℕ → Bool) (q : String) :
    (∀ c ∈ (run_autonomous f g q).calls, c.result.rounds ≤ c.limit)
    ∧ totalRounds (run_autonomous f g q) ≤ 40 := by
  have h15 := graphExec_rounds_le f 15
  have h25 := graphExec_rounds_le g defaultRecursionLimit
  have h25' : (graphExec g defaultRecursionLimit).rounds ≤ 25 := h25
  unfold run_autonomous
  cases hr1 : graphExec f 15 with
  | recursionError n =>
      rw [hr1] at h15
      constructor
      · intro c hc
        simp only [List.mem_singleton] at hc
        subst hc
        exact h15
      · simp only [totalRounds, List.map_cons, List.map_nil, List.sum_cons, List.sum_nil]
        simp only [ExecResult.rounds] at h15 ⊢
        omega
  | completed n =>
      rw [hr1] at h15
      cases hr2 : graphExec g defaultRecursionLimit with
      | recursionError m =>
          rw [hr2] at h25'
          constructor
          · intro c hc
            simp only [List.mem_cons, List.mem_singleton, List.not_mem_nil, or_false] at hc
            rcases hc with hc | hc
            · subst hc; exact h15
            · subst hc
              have hgoal := h25
              rw [hr2] at hgoal
              exact hgoal
          · simp only [totalRounds, List.map_cons, List.map_nil, List.sum_cons, List.sum_nil]
            simp only [ExecResult.rounds] at h15 h25' ⊢
            omega
      | completed m =>
          rw [hr2] at h25'
          constructor
          · intro c hc
            simp only [List.mem_cons, List.mem_singleton, List.not_mem_nil, or_false] at hc
            rcases hc with hc | hc
            · subst hc; exact h15
            · subst hc
              have hgoal := h25
              rw [hr2] at hgoal
              exact hgoal
          · simp only [totalRounds, List.map_cons, List.map_nil, List.sum_cons, List.sum_nil]
            simp only [ExecResult.rounds] at h15 h25' ⊢
            omega

/-! ### Claim C9 — the graph is executed twice per autonomous run -/

/-- C9: whenever the streamed graph execution completes without
raising, `run_autonomous` performs a second execution of the same graph
from the same inputs via the bare `invoke` call, and the second
execution runs under the library-default recursion limit of 25, not the
15-round limit passed to the first. -/
theorem autonomous_invokes_twice (f g : ℕ → Bool) (q : String) (k : ℕ)
    (h : graphExec f 15 = .completed k) :
    (run_autonomous f g q).calls
      = [{ inputs := q, limit := 15, result := .completed k },
         { inputs := q, limit := defaultRecursionLimit,
           result := graphExec g defaultRecursionLimit }]
    ∧ defaultRecursionLimit = 25 ∧ defaultRecursionLimit ≠ 15 := by
  refine ⟨?_, rfl, by decide⟩
  unfold run_autonomous
  rw [h]

theorem autonomous_invokes_twice_witness :
    (run_autonomous (fun _ => false) (fun _ => true) "rank it").calls
      = [{ inputs := "rank it", limit := 15, result := .completed 1 },
         { inputs := "rank it", limit := defaultRecursionLimit,
           result := graphExec (fun _ => true) defaultRecursionLimit }]
    ∧ defaultRecursionLimit = 25 ∧ defaultRecursionLimit ≠ 15 :=
  autonomous_invokes_twice (fun _ => false) (fun _ => true) "rank it" 1 (by decide)

/-! ### Uppercase-key machinery (claim C10) -/

theorem toUpper_not_lower (c : Char) : (Char.toUpper c).isLower = false := by
  unfold Char.toUpper
  by_cases h : c.toNat ≥ 97 ∧ c.toNat ≤ 122
  · rw [if_pos h]
    obtain ⟨h1, h2⟩ := h
    set n := Char.toNat c with hn
    interval_cases n <;> decide
  · rw [if_neg h]
    cases hl : c.isLower
    · rfl
    · exfalso
      apply h
      unfold Char.isLower at hl
      rw [Bool.and_eq_true, decide_eq_true_eq, decide_eq_true_eq] at hl
      obtain ⟨hl1, hl2⟩ := hl
      exact ⟨show (97 : ℕ) ≤ c.val.toNat from hl1, show c.val.toNat ≤ 122 from hl2⟩

/-- No character of the string is a lowercase ASCII letter. -/
def noLowerStr (u : String) : Prop := ∀ c ∈ u.data, c.isLower = false

theorem noLowerStr_pyUpper (s : String) : noLowerStr (pyUpper s) := by
  intro c hc
  have hc' : c ∈ s.data.map Char.toUpper := hc
  rcases List.mem_map.mp hc' with ⟨d, _, hd⟩
  rw [← hd]
  exact toUpper_not_lower d

theorem noLowerStr_pyStripUpper (s : String) : noLowerStr (pyStripUpper s) :=
  noLowerStr_pyUpper (pyStrip s)

/-- Every portfolio key and every forecast key is free of lowercase
ASCII letters (Fetch stores keys stripped and uppercased; Forecast only
stores keys it found in the portfolio). -/
def upperKeysInv (s : DataState) : Prop :=
  (∀ k ∈ alKeys s.portfolio, noLowerStr k) ∧ (∀ k ∈ alKeys s.forecasts, noLowerStr k)

theorem fetchGo_upperKeys (o : String → FetchOutcome) (ts : List String) (s : DataState)
    (hts : ∀ t ∈ ts, noLowerStr t) (hs : ∀ k ∈ alKeys s.portfolio, noLowerStr k) :
    ∀ k ∈ alKeys (fetchGo o ts s).1.portfolio, noLowerStr k := by
  induction ts generalizing s with
  | nil => exact hs
  | cons t rest ih =>
      have htt : noLowerStr t := hts t (List.mem_cons_self t rest)
      have hrest : ∀ u ∈ rest, noLowerStr u := fun u hu => hts u (List.mem_cons_of_mem t hu)
      cases ho : o t with
      | ok df =>
          by_cases hd : df = []
          · simp only [fetchGo, ho, hd, if_pos rfl]
            exact ih _ hrest hs
          · simp only [fetchGo, ho, if_neg hd]
            refine ih _ hrest ?_
            intro k hk
            rcases mem_alKeys_alSet.mp hk with h1 | h1
            · exact h1 ▸ htt
            · exact hs k h1
      | exn m =>
          simp only [fetchGo, ho]
          exact ih _ hrest hs

theorem risk_step_state (spy : Option (List ℚ)) (stdFn : List ℚ → ℚ) (sqrt252 : ℚ)
    (tickers : Option String) (s : DataState) :
    (runStep (.risk spy stdFn sqrt252 tickers) s).portfolio = s.portfolio
    ∧ (runStep (.risk spy stdFn sqrt252 tickers) s).forecasts = s.forecasts := by
  by_cases hp : s.portfolio = []
  · constructor <;> simp [runStep, runStepR, calculate_risk_metrics, hp]
  · cases hspy : spy with
    | none => constructor <;> simp [runStep, runStepR, calculate_risk_metrics, hp]
    | some spyCloses =>
        constructor
        · simp only [runStep, runStepR, calculate_risk_metrics, if_neg hp]
          exact riskGo_portfolio _ _ _ _ _
        · simp only [runStep, runStepR, calculate_risk_metrics, if_neg hp]
          exact riskGo_forecasts _ _ _ _ _

theorem runStep_preserves_upperInv (st : Step) (s : DataState) (h : upperKeysInv s) :
    upperKeysInv (runStep st s) := by
  obtain ⟨hport, hfc⟩ := h
  cases st with
  | fetch o ts =>
      constructor
      · show ∀ k ∈ alKeys (fetchGo o (fetchTickerList ts) s).1.portfolio, noLowerStr k
        refine fetchGo_upperKeys o _ s ?_ hport
        intro u hu
        rcases List.mem_map.mp hu with ⟨v, _, hv⟩
        exact hv ▸ noLowerStr_pyStripUpper v
      · show ∀ k ∈ alKeys (fetchGo o (fetchTickerList ts) s).1.forecasts, noLowerStr k
        rw [fetchGo_forecasts]
        exact hfc
  | risk spy stdFn sqrt252 tickers =>
      have hsc := risk_step_state spy stdFn sqrt252 tickers s
      exact ⟨fun k hk => hport k (hsc.1 ▸ hk), fun k hk => hfc k (hsc.2 ▸ hk)⟩
  | forecast prophetYhat ticker days =>
      cases hp : alLookup ticker s.portfolio with
      | none =>
          have he : runStep (.forecast prophetYhat ticker days) s = s := by
            simp [runStep, runStepR, ensemble_forecast, hp]
          rw [he]
          exact ⟨hport, hfc⟩
      | some df =>
          constructor
          · intro k hk
            have hk' : k ∈ alKeys s.portfolio := by
              simpa [runStep, runStepR, ensemble_forecast, hp] using hk
            exact hport k hk'
          · intro k hk
            have hk' : k ∈ alKeys (alSet ticker
                { current := ((df.map (·.close)).getLastD 0),
                  predicted := ((blendedProjection prophetYhat df days).getLastD 0),
                  change_pct := (((blendedProjection prophetYhat df days).getLastD 0
                    - (df.map (·.close)).getLastD 0)
                    / (df.map (·.close)).getLastD 0 * 100) } s.forecasts) := by
              simpa [runStep, runStepR, ensemble_forecast, hp] using hk
            rcases mem_alKeys_alSet.mp hk' with h1 | h1
            · exact h1 ▸ hport ticker (mem_alKeys_of_alLookup hp)
            · exact hfc k h1
  | sentiment enableSent score ticker =>
      by_cases he : enableSent
      · constructor
        · intro k hk
          exact hport k (by simpa [runStep, runStepR, analyze_sentiment, he] using hk)
        · intro k hk
          exact hfc k (by simpa [runStep, runStepR, analyze_sentiment, he] using hk)
      · have hid : runStep (.sentiment enableSent score ticker) s = s := by
          simp [runStep, runStepR, analyze_sentiment, he]
        rw [hid]
        exact ⟨hport, hfc⟩
  | ranking => exact ⟨hport, hfc⟩

theorem runPlan_preserves_upperInv (p : List (String × Step)) (s : DataState)
    (h : upperKeysInv s) : upperKeysInv (runPlan p s).1 := by
  induction p generalizing s with
  | nil => exact h
  | cons a rest ih =>
      rcases a with ⟨nm, st⟩
      simp only [runPlan]
      exact ih _ (runStep_preserves_upperInv st s h)

/-! ### Step-name discrimination (claim C10) -/

theorem forecastName_inj {x y : String}
    (h : "Forecasting " ++ x = "Forecasting " ++ y) : x = y := by
  have hd := congrArg String.data h
  rw [String.data_append, String.data_append] at hd
  exact String.ext (List.append_cancel_left hd)

theorem fetchName_ne_forecastName (x : String) :
    "Fetching Data" ≠ "Forecasting " ++ x := by
  intro h
  have hd := congrArg String.data h
  rw [String.data_append] at hd
  have e1 : "Fetching Data".data
      = ['F', 'e', 't', 'c', 'h', 'i', 'n', 'g', ' ', 'D', 'a', 't', 'a'] := rfl
  have e2 : "Forecasting ".data
      = ['F', 'o', 'r', 'e', 'c', 'a', 's', 't', 'i', 'n', 'g', ' '] := rfl
  rw [e1, e2] at hd
  simp only [List.cons_append] at hd
  injection hd with _ hd
  injection hd with hd2 _
  exact absurd hd2 (by decide)

theorem riskName_ne_forecastName (x : String) :
    "Risk Analysis" ≠ "Forecasting " ++ x := by
  intro h
  have hd := congrArg String.data h
  rw [String.data_append] at hd
  have e1 : "Risk Analysis".data
      = ['R', 'i', 's', 'k', ' ', 'A', 'n', 'a', 'l', 'y', 's', 'i', 's'] := rfl
  have e2 : "Forecasting ".data
      = ['F', 'o', 'r', 'e', 'c', 'a', 's', 't', 'i', 'n', 'g', ' '] := rfl
  rw [e1, e2] at hd
  simp only [List.cons_append] at hd
  injection hd with hd1 _
  exact absurd hd1 (by decide)

theorem rankName_ne_forecastName (x : String) :
    "Portfolio Ranking" ≠ "Forecasting " ++ x := by
  intro h
  have hd := congrArg String.data h
  rw [String.data_append] at hd
  have e1 : "Portfolio Ranking".data
      = ['P', 'o', 'r', 't', 'f', 'o', 'l', 'i', 'o', ' ',
         'R', 'a', 'n', 'k', 'i', 'n', 'g'] := rfl
  have e2 : "Forecasting ".data
      = ['F', 'o', 'r', 'e', 'c', 'a', 's', 't', 'i', 'n', 'g', ' '] := rfl
  rw [e1, e2] at hd
  simp only [List.cons_append] at hd
  injection hd with hd1 _
  exact absurd hd1 (by decide)

theorem sentName_ne_forecastName (x y : String) :
    "Sentiment " ++ y ≠ "Forecasting " ++ x := by
  intro h
  have hd := congrArg String.data h
  rw [String.data_append, String.data_append] at hd
  have e1 : "Sentiment ".data = ['S', 'e', 'n', 't', 'i', 'm', 'e', 'n', 't', ' '] := rfl
  have e2 : "Forecasting ".data
      = ['F', 'o', 'r', 'e', 'c', 'a', 's', 't', 'i', 'n', 'g', ' '] := rfl
  rw [e1, e2] at hd
  simp only [List.cons_append] at hd
  injection hd with hd1 _
  exact absurd hd1 (by decide)

/-! ### Generic result-by-name lemma over a plan -/

theorem runPlan_result_of_name (P : DataState → Prop) (N R : String)
    (p : List (String × Step)) (s : DataState) (hs : P s)
    (hpres : ∀ st : Step, ∀ s', P s' → P (runStep st s'))
    (hres : ∀ nmst ∈ p, nmst.1 = N → ∀ s', P s' → (runStepR nmst.2 s').2 = R) :
    ∀ e ∈ (runPlan p s).2, e.step = N → e.result = R := by
  induction p generalizing s with
  | nil => intro e he; simp [runPlan] at he
  | cons a rest ih =>
      rcases a with ⟨nm, st⟩
      intro e he hname
      simp only [runPlan, List.mem_cons] at he
      rcases he with he | he
      · subst he
        exact hres (nm, st) (List.mem_cons_self _ _) hname s hs
      · exact ih _ (hpres st s hs)
          (fun x hx => hres x (List.mem_cons_of_mem _ hx)) e he hname

/-! ### Claim C10 — lowercase tickers miss the portfolio in Manual mode -/

theorem forecast_result_not_loaded (p : List ℚ) (u : String) (d : ℕ) (s : DataState)
    (hs : upperKeysInv s) (hlow : ∃ c ∈ u.data, c.isLower = true) :
    runStepR (.forecast p u d) s = (s, notLoadedErr u) := by
  cases hp : alLookup u s.portfolio with
  | none => simp [runStepR, ensemble_forecast, hp]
  | some df =>
      exfalso
      have hk := mem_alKeys_of_alLookup hp
      have hnl := hs.1 u hk
      rcases hlow with ⟨c, hc, hcl⟩
      rw [hnl c hc] at hcl
      cases hcl

theorem manualPlan_forecast_elem (fetchO : String → FetchOutcome) (spy : Option (List ℚ))
    (stdFn : List ℚ → ℚ) (sqrt252 : ℚ) (prophetO : String → List ℚ)
    (sentO : String → ℚ) (enableSent : Bool) (tickers : String)
    (forecast_days : ℕ) (include_sentiment : Bool) (t : String)
    (nmst : String × Step)
    (hmem : nmst ∈ manualPlan fetchO spy stdFn sqrt252 prophetO sentO enableSent tickers
      forecast_days include_sentiment)
    (hname : nmst.1 = "Forecasting " ++ pyStrip t) :
    ∃ u ∈ pySplitComma tickers, pyStrip u = pyStrip t
      ∧ nmst = ("Forecasting " ++ pyStrip u,
          Step.forecast (prophetO (pyStrip u)) (pyStrip u) forecast_days) := by
  rw [manualPlan] at hmem
  rcases List.mem_append.mp hmem with hmem1 | hrank
  · rcases List.mem_append.mp hmem1 with hmem2 | hsent
    · rcases List.mem_append.mp hmem2 with hA | hC
      · rcases List.mem_cons.mp hA with h1 | hA1
        · rw [h1] at hname
          exact absurd hname (fetchName_ne_forecastName (pyStrip t))
        · rcases List.mem_cons.mp hA1 with h1 | hA2
          · rw [h1] at hname
            exact absurd hname (riskName_ne_forecastName (pyStrip t))
          · cases hA2
      · rcases List.mem_map.mp hC with ⟨u, hu, h1⟩
        rw [← h1] at hname
        have heq : pyStrip u = pyStrip t := forecastName_inj hname
        exact ⟨u, hu, heq, by rw [← h1]⟩
    · by_cases hc : (include_sentiment && enableSent) = true
      · rw [if_pos hc] at hsent
        rcases List.mem_map.mp hsent with ⟨u, hu, h1⟩
        rw [← h1] at hname
        exact absurd hname (sentName_ne_forecastName (pyStrip t) (pyStrip u))
      · rw [if_neg hc] at hsent
        cases hsent
  · rcases List.mem_singleton.mp hrank with h1
    rw [h1] at hname
    exact absurd hname (rankName_ne_forecastName (pyStrip t))

theorem runStep_portfolio_of_nonfetch (st : Step) (s : DataState)
    (h : ∀ o ts, st ≠ Step.fetch o ts) : (runStep st s).portfolio = s.portfolio := by
  cases st with
  | fetch o ts => exact absurd rfl (h o ts)
  | risk spy stdFn sqrt252 tickers => exact (risk_step_state spy stdFn sqrt252 tickers s).1
  | forecast p u d =>
      cases hp : alLookup u s.portfolio with
      | none => simp [runStep, runStepR, ensemble_forecast, hp]
      | some df => simp [runStep, runStepR, ensemble_forecast, hp]
  | sentiment e sc u =>
      by_cases he : e = true
      · simp [runStep, runStepR, analyze_sentiment, he]
      · simp [runStep, runStepR, analyze_sentiment, he]
  | ranking => rfl

theorem runPlan_portfolio_of_nonfetch (p : List (String × Step)) (s : DataState)
    (h : ∀ nmst ∈ p, ∀ o ts, nmst.2 ≠ Step.fetch o ts) :
    (runPlan p s).1.portfolio = s.portfolio := by
  induction p generalizing s with
  | nil => rfl
  | cons a rest ih =>
      rcases a with ⟨nm, st⟩
      simp only [runPlan]
      rw [ih _ (fun x hx => h x (List.mem_cons_of_mem _ hx))]
      exact runStep_portfolio_of_nonfetch st s (h (nm, st) (List.mem_cons_self _ _))

/-- C10: in a Manual-mode run whose ticker input contains an entry with
a lowercase ASCII letter (after stripping), Fetch stores the data under
the stripped-and-uppercased key, yet every Forecast step logged for
that entry returns the "not loaded" error — `run_manual` hands Forecast
the ticker merely stripped, so the portfolio lookup misses — and no
forecast is stored under the stripped key. -/
theorem lowercase_ticker_misses_portfolio (fetchO : String → FetchOutcome)
    (spy : Option (List ℚ)) (stdFn : List ℚ → ℚ) (sqrt252 : ℚ)
    (prophetO : String → List ℚ) (sentO : String → ℚ) (enableSent : Bool)
    (tickers : String) (forecast_days : ℕ) (include_sentiment : Bool)
    (t : String) (df : List PriceRow)
    (ht : t ∈ pySplitComma tickers)
    (hlow : ∃ c ∈ (pyStrip t).data, c.isLower = true)
    (hfetch : fetchO (pyStripUpper t) = .ok df) (hdf : df ≠ []) :
    (∀ e ∈ (run_manual fetchO spy stdFn sqrt252 prophetO sentO enableSent tickers
        forecast_days include_sentiment).steps,
      e.step = "Forecasting " ++ pyStrip t → e.result = notLoadedErr (pyStrip t))
    ∧ alLookup (pyStrip t) (run_manual fetchO spy stdFn sqrt252 prophetO sentO enableSent
        tickers forecast_days include_sentiment).data_state.forecasts = none
    ∧ alLookup (pyStripUpper t) (run_manual fetchO spy stdFn sqrt252 prophetO sentO
        enableSent tickers forecast_days include_sentiment).data_state.portfolio
      = some df := by
  have hinv0 : upperKeysInv reset_state :=
    ⟨fun k hk => by simp [reset_state, alKeys] at hk,
     fun k hk => by simp [reset_state, alKeys] at hk⟩
  refine ⟨?_, ?_, ?_⟩
  · show ∀ e ∈ (runPlan (manualPlan fetchO spy stdFn sqrt252 prophetO sentO enableSent
        tickers forecast_days include_sentiment) reset_state).2,
      e.step = "Forecasting " ++ pyStrip t → e.result = notLoadedErr (pyStrip t)
    refine runPlan_result_of_name upperKeysInv _ _ _ _ hinv0 runStep_preserves_upperInv ?_
    intro nmst hmem hname s' hs'
    rcases manualPlan_forecast_elem fetchO spy stdFn sqrt252 prophetO sentO enableSent
      tickers forecast_days include_sentiment t nmst hmem hname with ⟨u, _, hequ, hstep⟩
    rw [hstep]
    show (runStepR (.forecast (prophetO (pyStrip u)) (pyStrip u) forecast_days) s').2
      = notLoadedErr (pyStrip t)
    rw [forecast_result_not_loaded (prophetO (pyStrip u)) (pyStrip u) forecast_days s' hs'
      (hequ ▸ hlow)]
    rw [hequ]
  · have hfin : upperKeysInv (runPlan (manualPlan fetchO spy stdFn sqrt252 prophetO sentO
        enableSent tickers forecast_days include_sentiment) reset_state).1 :=
      runPlan_preserves_upperInv _ _ hinv0
    show alLookup (pyStrip t) (runPlan (manualPlan fetchO spy stdFn sqrt252 prophetO sentO
        enableSent tickers forecast_days include_sentiment) reset_state).1.forecasts = none
    cases hl : alLookup (pyStrip t) (runPlan (manualPlan fetchO spy stdFn sqrt252 prophetO
        sentO enableSent tickers forecast_days include_sentiment) reset_state).1.forecasts with
    | none => rfl
    | some f =>
        exfalso
        have hk := mem_alKeys_of_alLookup hl
        have hnl := hfin.2 _ hk
        rcases hlow with ⟨c, hc, hcl⟩
        rw [hnl c hc] at hcl
        cases hcl
  · show alLookup (pyStripUpper t) (runPlan (manualPlan fetchO spy stdFn sqrt252 prophetO
        sentO enableSent tickers forecast_days include_sentiment) reset_state).1.portfolio
      = some df
    rw [manualPlan]
    rw [runPlan_append, runPlan_append, runPlan_append]
    rw [runPlan_portfolio_of_nonfetch]
    · rw [runPlan_portfolio_of_nonfetch]
      · rw [runPlan_portfolio_of_nonfetch]
        · simp only [runPlan]
          show alLookup (pyStripUpper t)
            (runStep (Step.risk spy stdFn sqrt252 (some tickers))
              (runStepR (Step.fetch fetchO tickers) reset_state).1).portfolio = some df
          rw [(risk_step_state spy stdFn sqrt252 (some tickers)
            (runStepR (Step.fetch fetchO tickers) reset_state).1).1]
          show alLookup (pyStripUpper t)
            (fetchGo fetchO (fetchTickerList tickers) reset_state).1.portfolio = some df
          refine fetchGo_lookup_of_success fetchO reset_state ?_ ?_
          · rw [hfetch]
            simp [dfOk, hdf]
          · exact List.mem_map.mpr ⟨t, ht, rfl⟩
        · intro nmst hmem o ts
          rcases List.mem_map.mp hmem with ⟨u, _, h1⟩
          rw [← h1]
          intro h
          cases h
      · intro nmst hmem o ts
        by_cases hc : (include_sentiment && enableSent) = true
        · rw [if_pos hc] at hmem
          rcases List.mem_map.mp hmem with ⟨u, _, h1⟩
          rw [← h1]
          intro h
          cases h
        · rw [if_neg hc] at hmem
          cases hmem
    · intro nmst hmem o ts
      rcases List.mem_singleton.mp hmem with h1
      rw [h1]
      intro h
      cases h

/-- Fetch oracle for the C10 witness: only the uppercased key resolves. -/
def wLowerOracle : String → FetchOutcome := fun u =>
  if u = "AAPL" then .ok [{ date := 0, close := 1 }] else .exn "no data"

theorem lowercase_ticker_misses_portfolio_witness :
    ("aapl" ∈ pySplitComma "aapl" ∧ ∃ c ∈ (pyStrip "aapl").data, c.isLower = true)
    ∧ ((∀ e ∈ (run_manual wLowerOracle none (fun _ => 1) 16 (fun _ => []) (fun _ => 0)
          false "aapl" 5 false).steps,
        e.step = "Forecasting " ++ pyStrip "aapl" → e.result = notLoadedErr (pyStrip "aapl"))
      ∧ alLookup (pyStrip "aapl") (run_manual wLowerOracle none (fun _ => 1) 16 (fun _ => [])
          (fun _ => 0) false "aapl" 5 false).data_state.forecasts = none
      ∧ alLookup (pyStripUpper "aapl") (run_manual wLowerOracle none (fun _ => 1) 16
          (fun _ => []) (fun _ => 0) false "aapl" 5 false).data_state.portfolio
        = some [{ date := 0, close := 1 }]) :=
  ⟨⟨by decide, by decide⟩,
    lowercase_ticker_misses_portfolio wLowerOracle none (fun _ => 1) 16 (fun _ => [])
      (fun _ => 0) false "aapl" 5 false "aapl" [{ date := 0, close := 1 }]
      (by decide) (by decide) (by decide) (by decide)⟩
